import Mathlib

/-!
Verification of the Zenith language-server core against its specification.

The TypeScript sources are embedded shallowly:

* pure helper functions become Lean functions over `String` / `List Char`;
* the JavaScript regular expressions that drive the scanners are hand-compiled
  into explicit, executable matching functions that follow the engine's
  leftmost-match / greedy-with-backtracking semantics for the concrete
  patterns appearing in the sources;
* JavaScript `Map` objects become association lists with `Map`-faithful
  insert (`jsMapSet` keeps the original position of an overwritten key) and
  delete operations;
* the file system and the editor-protocol transport stay outside the model:
  functions that consult them (`detectProjectRoot`, `getProjectGraph`) are
  passed in as parameters of the operations under verification.

Character classes use the ASCII-plus-listed-Unicode fragment of the
JavaScript semantics (`\s`, `\w`, `.`-excluding-line-terminators, ASCII
case folding for the `i` flag); every concrete input exercised below is
ASCII.
-/

/-! ## Character classes and small string utilities -/

/-- ASCII lower-casing, the fragment of `toLowerCase` used by the sources. -/
def lc (c : Char) : Char :=
  if 'A' ≤ c ∧ c ≤ 'Z' then Char.ofNat (c.toNat + 32) else c

/-- Case-insensitive character comparison (regex `i` flag). -/
def lcEq (a b : Char) : Bool := lc a = lc b

/-- `pat` is a case-insensitive prefix of `s`. -/
def ciStarts : List Char → List Char → Bool
  | [], _ => true
  | _ :: _, [] => false
  | p :: ps, c :: cs => lcEq p c && ciStarts ps cs

/-- `pat` is a (case-sensitive) prefix of `s`. -/
def litStarts : List Char → List Char → Bool
  | [], _ => true
  | _ :: _, [] => false
  | p :: ps, c :: cs => p = c && litStarts ps cs

/-- `String.prototype.startsWith`, expressed over the character list so
that the kernel can evaluate it. -/
def jsStartsWith (s pre : String) : Bool := litStarts pre.data s.data

/-- `String.prototype.split` on a single separator character. -/
def jsSplitChar (c : Char) : List Char → List (List Char)
  | [] => [[]]
  | x :: t =>
    match jsSplitChar c t with
    | h :: rest => if x = c then [] :: h :: rest else (x :: h) :: rest
    | [] => [[x]]

/-- JavaScript `\s` (whitespace and line terminators). -/
def jsWs (c : Char) : Bool :=
  c = ' ' || c = '\t' || c = '\n' || c = '\r' ||
  c.toNat = 0xb || c.toNat = 0xc || c.toNat = 0xa0 || c.toNat = 0x1680 ||
  (0x2000 ≤ c.toNat && c.toNat ≤ 0x200a) ||
  c.toNat = 0x2028 || c.toNat = 0x2029 || c.toNat = 0x202f ||
  c.toNat = 0x205f || c.toNat = 0x3000 || c.toNat = 0xfeff

/-- JavaScript `\w`, i.e. `[A-Za-z0-9_]`. -/
def isW (c : Char) : Bool :=
  ('a' ≤ c && c ≤ 'z') || ('A' ≤ c && c ≤ 'Z') || ('0' ≤ c && c ≤ '9') || c = '_'

/-- First character of a JS identifier as used in the sources: `[a-zA-Z_$]`. -/
def identStart (c : Char) : Bool :=
  ('a' ≤ c && c ≤ 'z') || ('A' ≤ c && c ≤ 'Z') || c = '_' || c = '$'

/-- Continuation character `[\w$]` = `[a-zA-Z0-9_$]`. -/
def identCont (c : Char) : Bool := isW c || c = '$'

/-- Characters matched by `.` (anything but a line terminator). -/
def dotChar (c : Char) : Bool :=
  !(c = '\n' || c = '\r' || c.toNat = 0x2028 || c.toNat = 0x2029)

/-- JavaScript `String.prototype.trim` over the `\s` class above. -/
def jsTrimL (cs : List Char) : List Char :=
  ((cs.dropWhile jsWs).reverse.dropWhile jsWs).reverse

/-- `trim` on strings. -/
def jsTrim (s : String) : String := ⟨jsTrimL s.data⟩

/-- Maximal identifier token at the head: `[a-zA-Z_$][\w$]*`. -/
def identTake (cs : List Char) : Option (List Char × List Char) :=
  match cs with
  | [] => none
  | c :: rest =>
    if identStart c then
      some (c :: rest.takeWhile identCont, rest.dropWhile identCont)
    else none

/-! ## `parseForExpression` (src/metadata/directive-metadata.ts)

Hand-compiled form of the anchored regular expression

`/^\s*([a-zA-Z_$][\w$]*)(?:\s*,\s*([a-zA-Z_$][\w$]*))?\s+in\s+(.+)\s*$/`

The greedy sub-matches are complete here (a shorter identifier or
whitespace run always leaves a character that the following atom rejects,
and skipping the optional comma group after seeing a comma always fails),
except in the `\s+(.+)\s*$` tail, where the engine backtracks over the
lengths of the whitespace run and of the `.+` capture; `forTail`
enumerates those lengths in the engine's greedy order. -/

/-- Result of a successful `zen:for` value parse. -/
structure ForExpr where
  itemVar : String
  indexVar : Option String
  source : String
  deriving DecidableEq, Repr

/-- Matcher for the `\s+(.+)\s*$` tail of the iteration regex: returns the
text captured by `.+`, trying the whitespace length and then the capture
length longest-first, exactly as the backtracking engine does. -/
def forTail (t : List Char) : Option (List Char) :=
  let m := (t.takeWhile jsWs).length
  ((List.range m).map (· + 1)).reverse.findSome? fun a =>
    let r := t.drop a
    let d := (r.takeWhile dotChar).length
    ((List.range d).map (· + 1)).reverse.findSome? fun k =>
      if (r.drop k).all jsWs then some (r.take k) else none

/-- Shared tail of the iteration regex after the bound variables:
`\s+in\s+(.+)\s*$` applied to the remaining text. -/
def forAfterVars (r : List Char) : Option (List Char) :=
  match r.takeWhile jsWs with
  | [] => none
  | _ :: _ =>
    let r' := r.dropWhile jsWs
    if litStarts "in".data r' then forTail (r'.drop 2) else none

/-- `parseForExpression` from `directive-metadata.ts`. -/
def parseForExpression (expression : String) : Option ForExpr :=
  let cs := expression.data.dropWhile jsWs
  match identTake cs with
  | none => none
  | some (id1, r1) =>
    match r1.dropWhile jsWs with
    | ',' :: r' =>
      match identTake (r'.dropWhile jsWs) with
      | none => none
      | some (id2, r2) =>
        match forAfterVars r2 with
        | some src => some ⟨⟨id1⟩, some ⟨id2⟩, jsTrim ⟨src⟩⟩
        | none => none
    | _ =>
      match forAfterVars r1 with
      | some src => some ⟨⟨id1⟩, none, jsTrim ⟨src⟩⟩
      | none => none

/-! ## JavaScript `Map` modelled as an association list

`Map.set` keeps the original position of an overwritten key and appends a
new key at the end; `Map.delete` removes the key; iteration follows list
order. -/

/-- `Map.prototype.set`. -/
def jsMapSet {α : Type} : List (String × α) → String → α → List (String × α)
  | [], k, v => [(k, v)]
  | (k', v') :: t, k, v =>
    if k' = k then (k, v) :: t else (k', v') :: jsMapSet t k v

/-- `Map.prototype.get` (`none` plays `undefined`). -/
def jsLookup {α : Type} (m : List (String × α)) (k : String) : Option α :=
  (m.find? (·.1 = k)).map (·.2)

/-- `Map.prototype.delete`. -/
def jsMapDelete {α : Type} (m : List (String × α)) (k : String) : List (String × α) :=
  m.filter (·.1 ≠ k)

/-! ## Static metadata: `src/metadata/core-imports.ts` -/

/-- An exported symbol of a core or plugin module (the two TS interfaces
`ModuleExport` and `PluginExport` differ only in the allowed `kind`
literals, so one structure serves both). -/
structure ModuleExport where
  name : String
  kind : String
  description : String
  signature : Option String
  deriving DecidableEq, Repr

/-- `CoreModuleMetadata`. -/
structure CoreModuleMetadata where
  module : String
  description : String
  exports : List ModuleExport
  deriving DecidableEq, Repr

/-- The `CORE_MODULES` table. -/
def CORE_MODULES : List (String × CoreModuleMetadata) :=
  [("zenith",
    { module := "zenith"
      description := "Core Zenith runtime primitives and lifecycle hooks."
      exports :=
        [⟨"zenEffect", "function",
          "Reactive effect that re-runs when dependencies change.",
          some "zenEffect(callback: () => void | (() => void)): void"⟩,
         ⟨"zenOnMount", "function",
          "Called when component is mounted to the DOM.",
          some "zenOnMount(callback: () => void | (() => void)): void"⟩,
         ⟨"zenOnDestroy", "function",
          "Called when component is removed from the DOM.",
          some "zenOnDestroy(callback: () => void): void"⟩,
         ⟨"zenOnUpdate", "function",
          "Called after any state update causes a re-render.",
          some "zenOnUpdate(callback: () => void): void"⟩,
         ⟨"zenRef", "function", "Create a reactive reference.",
          some "zenRef<T>(initial: T): \x7b value: T \x7d"⟩,
         ⟨"zenState", "function", "Create reactive state.",
          some "zenState<T>(initial: T): [T, (value: T) => void]"⟩,
         ⟨"zenMemo", "function", "Memoize a computed value.",
          some "zenMemo<T>(compute: () => T): T"⟩,
         ⟨"zenBatch", "function", "Batch multiple state updates.",
          some "zenBatch(callback: () => void): void"⟩,
         ⟨"zenUntrack", "function", "Run code without tracking dependencies.",
          some "zenUntrack<T>(callback: () => T): T"⟩] }),
   ("zenith/router",
    { module := "zenith/router"
      description := "File-based SPA router for Zenith framework."
      exports :=
        [⟨"ZenLink", "component",
          "Declarative navigation component for routes.",
          some "<ZenLink to=\"/path\" preload?>\x7bchildren\x7d</ZenLink>"⟩,
         ⟨"useRoute", "function",
          "Provides reactive access to the current route. Must be called at top-level script scope.",
          some "useRoute(): \x7b path: string; params: Record<string, string>; query: Record<string, string> \x7d"⟩,
         ⟨"useRouter", "function",
          "Provides programmatic navigation methods.",
          some "useRouter(): \x7b navigate: (to: string, options?: \x7b replace?: boolean \x7d) => void; back: () => void; forward: () => void \x7d"⟩,
         ⟨"navigate", "function", "Navigate to a route programmatically.",
          some "navigate(to: string, options?: \x7b replace?: boolean \x7d): void"⟩,
         ⟨"prefetch", "function", "Prefetch a route for faster navigation.",
          some "prefetch(path: string): Promise<void>"⟩,
         ⟨"isActive", "function", "Check if a route is currently active.",
          some "isActive(path: string, exact?: boolean): boolean"⟩,
         ⟨"getRoute", "function", "Get the current route state.",
          some "getRoute(): \x7b path: string; params: Record<string, string>; query: Record<string, string> \x7d"⟩] })]

/-- `getCoreModule`. -/
def getCoreModule (moduleName : String) : Option CoreModuleMetadata :=
  jsLookup CORE_MODULES moduleName

/-- `getCoreModuleNames`. -/
def getCoreModuleNames : List String := CORE_MODULES.map (·.1)

/-- `getCoreExport`. -/
def getCoreExport (moduleName exportName : String) : Option ModuleExport :=
  match getCoreModule moduleName with
  | none => none
  | some m => m.exports.find? (·.name = exportName)

/-- `isCoreModule` (the `in` operator on the table's keys). -/
def isCoreModule (moduleName : String) : Bool :=
  CORE_MODULES.any (·.1 = moduleName)

/-! ## Static metadata: the plugin-import table (`plugin-imports.ts`) -/

/-- `PluginModuleMetadata`. -/
structure PluginModuleMetadata where
  module : String
  description : String
  exports : List ModuleExport
  required : Bool
  deriving DecidableEq, Repr

/-- The `PLUGIN_MODULES` table. -/
def PLUGIN_MODULES : List (String × PluginModuleMetadata) :=
  [("zenith:content",
    { module := "zenith:content"
      description := "Content collections plugin for Zenith. Provides type-safe content management for Markdown, MDX, and JSON files."
      exports :=
        [⟨"zenCollection", "function",
          "Define a content collection with schema validation.",
          some "zenCollection<T>(options: \x7b name: string; schema: T \x7d): Collection<T>"⟩,
         ⟨"getCollection", "function",
          "Get all entries from a content collection.",
          some "getCollection(name: string): Promise<CollectionEntry[]>"⟩,
         ⟨"getEntry", "function",
          "Get a single entry from a content collection.",
          some "getEntry(collection: string, slug: string): Promise<CollectionEntry | undefined>"⟩,
         ⟨"useZenOrder", "function",
          "Hook to sort collection entries by frontmatter order field.",
          some "useZenOrder(entries: CollectionEntry[]): CollectionEntry[]"⟩]
      required := false }),
   ("zenith:image",
    { module := "zenith:image"
      description := "Image optimization plugin for Zenith."
      exports :=
        [⟨"Image", "function",
          "Optimized image component with automatic format conversion and lazy loading.",
          some "Image(\x7b src: string; alt: string; width?: number; height?: number \x7d)"⟩,
         ⟨"getImage", "function", "Get optimized image metadata.",
          some "getImage(src: string, options?: ImageOptions): Promise<ImageMetadata>"⟩]
      required := false })]

/-- `getPluginModule`. -/
def getPluginModule (moduleName : String) : Option PluginModuleMetadata :=
  jsLookup PLUGIN_MODULES moduleName

/-- `getPluginExport`. -/
def getPluginExport (moduleName exportName : String) : Option ModuleExport :=
  match jsLookup PLUGIN_MODULES moduleName with
  | none => none
  | some m => m.exports.find? (·.name = exportName)

/-- `isPluginModule`: membership in the `zenith:` namespace. -/
def isPluginModule (moduleName : String) : Bool :=
  jsStartsWith moduleName "zenith:"

/-- `isKnownPluginModule`: key of the plugin registry. -/
def isKnownPluginModule (moduleName : String) : Bool :=
  PLUGIN_MODULES.any (·.1 = moduleName)

/-! ## Import parsing and resolution (the imports module)

The two line regexes of `parseZenithImports`,

`/import\s+(type\s+)?(?:\{([^}]+)\}|(\*\s+as\s+\w+)|(\w+))\s+from\s+['"]([^'"]+)['"]/`
and `/import\s+['"]([^'"]+)['"]/`,

are hand-compiled below.  Greedy sub-matches are complete (each maximal
token is followed by an atom that rejects the token's own characters); the
one genuine backtracking point is the optional `type\s+` group, which the
matcher tries first and then abandons, exactly like the engine. -/

/-- Consume at least one `\s`. -/
def wsPlus (cs : List Char) : Option (List Char) :=
  match cs.takeWhile jsWs with
  | [] => none
  | _ :: _ => some (cs.dropWhile jsWs)

/-- Consume an exact literal. -/
def litP (pat cs : List Char) : Option (List Char) :=
  if litStarts pat cs then some (cs.drop pat.length) else none

/-- Consume `\w+` (maximal). -/
def wPlus (cs : List Char) : Option (List Char × List Char) :=
  match cs.takeWhile isW with
  | [] => none
  | w => some (w, cs.dropWhile isW)

/-- The three alternatives of the import-clause group: named imports
(`match[2]`, text inside the braces), a namespace import (`match[3]`,
the full `* as x` text), or a default import (`match[4]`). -/
inductive ImportClause where
  | named (inner : String)
  | star (text : String)
  | deflt (word : String)
  deriving DecidableEq, Repr

/-- Parse the clause group `(?:\{([^}]+)\}|(\*\s+as\s+\w+)|(\w+))`.
The alternatives have disjoint first characters, so no backtracking
across alternatives is possible. -/
def clauseTake (cs : List Char) : Option (ImportClause × List Char) :=
  match cs with
  | '{' :: r =>
    (match r.takeWhile (· ≠ '}') with
     | [] => none
     | inner =>
       match r.dropWhile (· ≠ '}') with
       | '}' :: r' => some (.named ⟨inner⟩, r')
       | _ => none)
  | '*' :: r =>
    (let w1 := r.takeWhile jsWs
     match w1 with
     | [] => none
     | _ :: _ =>
       match litP "as".data (r.dropWhile jsWs) with
       | none => none
       | some r2 =>
         let w2 := r2.takeWhile jsWs
         match w2 with
         | [] => none
         | _ :: _ =>
           match wPlus (r2.dropWhile jsWs) with
           | none => none
           | some (w, r3) =>
             some (.star ⟨'*' :: (w1 ++ "as".data ++ w2 ++ w)⟩, r3))
  | _ =>
    match wPlus cs with
    | none => none
    | some (w, r) => some (.deflt ⟨w⟩, r)

/-- Parse `\s+from\s+['"]([^'"]+)['"]` and return the module specifier. -/
def fromTail (cs : List Char) : Option String :=
  match wsPlus cs with
  | none => none
  | some r1 =>
    match litP "from".data r1 with
    | none => none
    | some r2 =>
      match wsPlus r2 with
      | none => none
      | some r3 =>
        match r3 with
        | q :: r4 =>
          if q = '"' || q = '\'' then
            match r4.takeWhile (fun c => c ≠ '"' && c ≠ '\'') with
            | [] => none
            | inner =>
              match r4.dropWhile (fun c => c ≠ '"' && c ≠ '\'') with
              | _ :: _ => some ⟨inner⟩
              | [] => none
          else none
        | [] => none

/-- Raw result of the from-style import regex. -/
structure RawImport where
  isType : Bool
  clause : ImportClause
  module : String
  deriving DecidableEq, Repr

/-- Attempt the from-style import regex at the current position. -/
def importMatchHere (cs : List Char) : Option RawImport :=
  match litP "import".data cs with
  | none => none
  | some r0 =>
    match wsPlus r0 with
    | none => none
    | some r1 =>
      let attempt (isT : Bool) (r : List Char) : Option RawImport :=
        match clauseTake r with
        | none => none
        | some (cl, r2) =>
          match fromTail r2 with
          | none => none
          | some mod => some ⟨isT, cl, mod⟩
      match (match litP "type".data r1 with
             | some rt =>
               (match wsPlus rt with
                | some rt2 => attempt true rt2
                | none => none)
             | none => none) with
      | some m => some m
      | none => attempt false r1

/-- Leftmost-match search: try a positional matcher at each start offset. -/
def scanLeft {α : Type} (f : List Char → Option α) : Nat → List Char → Option α
  | 0, _ => none
  | _ + 1, [] => f []
  | fuel + 1, c :: t =>
    match f (c :: t) with
    | some a => some a
    | none => scanLeft f fuel t

/-- Leftmost match of the from-style import regex in one line. -/
def matchImportLine (line : String) : Option RawImport :=
  scanLeft importMatchHere (line.length + 1) line.data

/-- Attempt the side-effect import regex `import\s+['"]([^'"]+)['"]` at the
current position. -/
def sideEffectHere (cs : List Char) : Option String :=
  match litP "import".data cs with
  | none => none
  | some r0 =>
    match wsPlus r0 with
    | none => none
    | some r1 =>
      match r1 with
      | q :: r2 =>
        if q = '"' || q = '\'' then
          match r2.takeWhile (fun c => c ≠ '"' && c ≠ '\'') with
          | [] => none
          | inner =>
            match r2.dropWhile (fun c => c ≠ '"' && c ≠ '\'') with
            | _ :: _ => some ⟨inner⟩
            | [] => none
        else none
      | [] => none

/-- Leftmost match of the side-effect import regex in one line. -/
def matchSideEffectLine (line : String) : Option String :=
  scanLeft sideEffectHere (line.length + 1) line.data

/-- Leftmost index at which `\s+as\s+` matches inside a list (used by the
specifier cleanup `part.trim().split(/\s+as\s+/)[0]`). -/
def asSplitHere (cs : List Char) : Bool :=
  match cs.takeWhile jsWs with
  | [] => false
  | _ :: _ =>
    match litP "as".data (cs.dropWhile jsWs) with
    | none => false
    | some r => !(r.takeWhile jsWs).isEmpty

/-- `split(/\s+as\s+/)[0]`: the text before the first `\s+as\s+` match. -/
def asSplitHead : Nat → List Char → List Char
  | 0, cs => cs
  | _ + 1, [] => []
  | fuel + 1, c :: t =>
    if asSplitHere (c :: t) then [] else c :: asSplitHead fuel t

/-- Specifier list extracted from a clause (lines 64-77 of the imports
module): named imports are split on commas and stripped of `as` renames,
a namespace import contributes its trimmed text, a default import its
word. -/
def clauseSpecifiers : ImportClause → List String
  | .named inner =>
    ((jsSplitChar ',' inner.data).map fun l => (⟨l⟩ : String)).foldl
      (fun acc part =>
        let t := (jsTrim part).data
        let cleaned := jsTrim ⟨asSplitHead (t.length + 1) t⟩
        if cleaned ≠ "" then acc ++ [cleaned] else acc)
      []
  | .star text => [jsTrim text]
  | .deflt word => [word]

/-- `ParsedImport`. -/
structure ParsedImport where
  module : String
  specifiers : List String
  isType : Bool
  line : Nat
  deriving DecidableEq, Repr

/-- Whether a module specifier is retained by `parseZenithImports`
(`moduleName.startsWith('zenith') || moduleName.startsWith('zenith:')`). -/
def zenithRetained (moduleName : String) : Bool :=
  jsStartsWith moduleName "zenith" || jsStartsWith moduleName "zenith:"

/-- The import record contributed by a single line of the script: the
from-style regex is tried first, and a side-effect import is recorded only
when the from-style regex does not match the line at all. -/
def lineImport (line : String) : Option (String × List String × Bool) :=
  match matchImportLine line with
  | some m =>
    if zenithRetained m.module then
      some (m.module, clauseSpecifiers m.clause, m.isType)
    else none
  | none =>
    match matchSideEffectLine line with
    | some mod =>
      if zenithRetained mod then some (mod, [], false) else none
    | none => none

/-- The line loop of `parseZenithImports` (`i` is the zero-based index of
the next line). -/
def goImports : Nat → List String → List ParsedImport
  | _, [] => []
  | i, line :: rest =>
    match lineImport line with
    | some (mod, specs, isT) => ⟨mod, specs, isT, i + 1⟩ :: goImports (i + 1) rest
    | none => goImports (i + 1) rest

/-- The lines of the script, `script.split('\n')`. -/
def scriptLines (script : String) : List String :=
  (jsSplitChar '\n' script.data).map fun l => (⟨l⟩ : String)

/-- `parseZenithImports`. -/
def parseZenithImports (script : String) : List ParsedImport :=
  goImports 0 (scriptLines script)

/-- The classification of a resolved module. -/
inductive ModuleKind where
  | core
  | plugin
  | external
  deriving DecidableEq, Repr

/-- The metadata union `CoreModuleMetadata | PluginModuleMetadata`. -/
inductive ResolvedMeta where
  | coreMeta (m : CoreModuleMetadata)
  | pluginMeta (m : PluginModuleMetadata)
  deriving DecidableEq, Repr

/-- Exports of either metadata variant. -/
def ResolvedMeta.exports : ResolvedMeta → List ModuleExport
  | .coreMeta m => m.exports
  | .pluginMeta m => m.exports

/-- `ResolvedImport`. -/
structure ResolvedImport where
  module : String
  kind : ModuleKind
  metadata : Option ResolvedMeta
  isKnown : Bool
  deriving DecidableEq, Repr

/-- `resolveModule`. -/
def resolveModule (moduleName : String) : ResolvedImport :=
  if isCoreModule moduleName then
    { module := moduleName
      kind := .core
      metadata := (getCoreModule moduleName).map .coreMeta
      isKnown := true }
  else if isPluginModule moduleName then
    { module := moduleName
      kind := .plugin
      metadata := (getPluginModule moduleName).map .pluginMeta
      isKnown := isKnownPluginModule moduleName }
  else
    { module := moduleName
      kind := .external
      metadata := none
      isKnown := false }

/-- `resolveExport`. -/
def resolveExport (moduleName exportName : String) : Option ModuleExport :=
  if isCoreModule moduleName then getCoreExport moduleName exportName
  else if isKnownPluginModule moduleName then getPluginExport moduleName exportName
  else none

/-- `hasRouterImport`. -/
def hasRouterImport (imports : List ParsedImport) : Bool :=
  imports.any (·.module = "zenith/router")

/-- `hasImport`. -/
def hasImport (imports : List ParsedImport) (exportName : String) : Bool :=
  imports.any (fun i => i.specifiers.contains exportName)

/-! ## Locating the script block

`/<script[^>]*>([\s\S]*?)<\/script>/i`: the open tag runs to the first
`>` after the case-insensitive `<script`, and the lazy body runs to the
first case-insensitive `</script>` after it; if either is missing the
engine abandons this start position and tries the next one. -/

/-- Leftmost-match search that also reports the match offset. -/
def scanLeftIdx {α : Type} (f : List Char → Option α) :
    Nat → Nat → List Char → Option (Nat × α)
  | 0, _, _ => none
  | _ + 1, i, [] => (f []).map (i, ·)
  | fuel + 1, i, c :: t =>
    match f (c :: t) with
    | some a => some (i, a)
    | none => scanLeftIdx f fuel (i + 1) t

/-- Leftmost offset of a literal (case-sensitive) substring,
`String.prototype.indexOf`. -/
def indexOfSub (needle hay : List Char) : Option Nat :=
  scanLeftIdx (fun cs => if litStarts needle cs then some () else none)
    (hay.length + 1) 0 hay |>.map (·.1)

/-- Offset of the first case-insensitive `</script>` in a list. -/
def findScriptCloser (cs : List Char) : Option Nat :=
  scanLeftIdx (fun r => if ciStarts "</script>".data r then some () else none)
    (cs.length + 1) 0 cs |>.map (·.1)

/-- Attempt the script-block regex at the current position; returns the
body, the body's offset relative to the match start, and the total match
length. -/
def scriptHere (cs : List Char) : Option (List Char × Nat × Nat) :=
  if ciStarts "<script".data cs then
    let afterOpen := cs.drop 7
    let attrs := afterOpen.takeWhile (· ≠ '>')
    match afterOpen.dropWhile (· ≠ '>') with
    | '>' :: rest =>
      match findScriptCloser rest with
      | some k =>
        let rel := 7 + attrs.length + 1
        some (rest.take k, rel, rel + k + 9)
      | none => none
    | _ => none
  else none

/-- Leftmost match of the script-block regex: the body together with the
offset the diagnostics engine assigns to it
(`scriptMatch.index + scriptMatch[0].indexOf(scriptContent)` — note that
the `indexOf` can pick an earlier copy of the body inside the match). -/
def scriptContentOf (text : String) : Option (String × Nat) :=
  match scanLeftIdx scriptHere (text.length + 1) 0 text.data with
  | none => none
  | some (i, (body, rel, len)) =>
    let matchText := (text.data.drop i).take len
    some (⟨body⟩, i + ((indexOfSub body matchText).getD rel))

/-- `getScriptContent` from the server: the body, or `""` when the
document has no script block. -/
def getScriptContent (text : String) : String :=
  ((scriptContentOf text).map (·.1)).getD ""

/-! ## Diagnostics (the diagnostics module)

Findings are modelled with raw character offsets; the source converts
offsets to line/character pairs through `document.positionAt`, a
presentation step that none of the claims touch. -/

/-- `DiagnosticSeverity` of the language-server protocol. -/
inductive Severity where
  | Error
  | Warning
  | Information
  | Hint
  deriving DecidableEq, Repr

/-- One finding. -/
structure Diagnostic where
  severity : Severity
  startOff : Nat
  endOff : Nat
  message : String
  deriving DecidableEq, Repr

/-- One match of the directive pattern
`/(zen:(?:if|for|effect|show))\s*=\s*["']([^"']*)["']/g`. -/
structure DirMatch where
  name : String
  value : String
  index : Nat
  len : Nat
  deriving DecidableEq, Repr

/-- Attempt the directive pattern at the current position; the alternation
tries `if`, `for`, `effect`, `show` in order, and the quotes need not
match each other. -/
def directiveHere (cs : List Char) : Option (String × String × Nat) :=
  match litP "zen:".data cs with
  | none => none
  | some r0 =>
    ["if", "for", "effect", "show"].findSome? fun alt =>
      match litP alt.data r0 with
      | none => none
      | some r1 =>
        let w1 := r1.takeWhile jsWs
        match r1.dropWhile jsWs with
        | '=' :: r3 =>
          let w2 := r3.takeWhile jsWs
          (match r3.dropWhile jsWs with
           | q :: r5 =>
             if q = '"' || q = '\'' then
               let v := r5.takeWhile (fun c => c ≠ '"' && c ≠ '\'')
               match r5.dropWhile (fun c => c ≠ '"' && c ≠ '\'') with
               | _ :: _ =>
                 some ("zen:" ++ alt, ⟨v⟩,
                   4 + alt.length + w1.length + 1 + w2.length + 1 + v.length + 1)
               | [] => none
             else none
           | [] => none)
        | _ => none

/-- Repeated leftmost matching (`g` flag): each successful match resumes
just past its own end, a failure advances one character. -/
def scanAll {α : Type} (f : List Char → Option (α × Nat)) :
    Nat → Nat → List Char → List (Nat × α)
  | 0, _, _ => []
  | _ + 1, _, [] => []
  | fuel + 1, i, c :: t =>
    match f (c :: t) with
    | some (a, len) => (i, a) :: scanAll f fuel (i + len) ((c :: t).drop len)
    | none => scanAll f fuel (i + 1) t

/-- All directive matches of a document, in scan order. -/
def directiveScan (text : String) : List DirMatch :=
  (scanAll (fun cs => (directiveHere cs).map fun (n, v, len) => ((n, v, len), len))
      (text.length + 1) 0 text.data).map
    fun (i, (n, v, len)) => ⟨n, v, i, len⟩

/-- The findings contributed by one directive match (the `zen:for` syntax
check and the empty-value check run independently). -/
def directiveMatchDiags (m : DirMatch) : List Diagnostic :=
  (if m.name = "zen:for" then
    match parseForExpression m.value with
    | none =>
      [⟨.Error, m.index, m.index + m.len,
        "Invalid zen:for syntax. Expected: \"item in items\" or \"item, index in items\""⟩]
    | some _ => []
   else [])
  ++ (if jsTrim m.value = "" then
        [⟨.Error, m.index, m.index + m.len, m.name ++ " requires a value"⟩]
      else [])

/-- Attempt `/<slot[^>]*zen:for/` at the current position (greedy `[^>]*`,
longest extension first). -/
def slotForHere (cs : List Char) : Option Nat :=
  match litP "<slot".data cs with
  | none => none
  | some r =>
    let maxRun := (r.takeWhile (· ≠ '>')).length
    (List.range (maxRun + 1)).reverse.findSome? fun k =>
      if litStarts "zen:for".data (r.drop k) then some (5 + k + 7) else none

/-- All matches of the slot/iteration pattern. -/
def slotForScan (text : String) : List (Nat × Nat) :=
  scanAll (fun cs => (slotForHere cs).map fun len => (len, len))
    (text.length + 1) 0 text.data

/-- `collectDirectiveDiagnostics`. -/
def collectDirectiveDiagnostics (text : String) : List Diagnostic :=
  (directiveScan text).flatMap directiveMatchDiags
  ++ (slotForScan text).map fun (i, len) =>
      ⟨.Error, i, i + len, "zen:for cannot be used on <slot> elements"⟩

/-- Attempt the dynamically built pattern `import[^'"]*['"]<module>['"]`
at the current position.  The source escapes only the first `:` of the
module; the model always treats the module text literally, which agrees
with the built regex whenever the module contains no other regex
metacharacter. -/
def importPatternHere (mod : List Char) (cs : List Char) : Option Nat :=
  match litP "import".data cs with
  | none => none
  | some r0 =>
    let run := r0.takeWhile (fun c => c ≠ '"' && c ≠ '\'')
    match r0.dropWhile (fun c => c ≠ '"' && c ≠ '\'') with
    | q1 :: r1 =>
      if q1 = '"' || q1 = '\'' then
        match litP mod r1 with
        | some (q2 :: _) =>
          if q2 = '"' || q2 = '\'' then some (6 + run.length + 1 + mod.length + 1)
          else none
        | _ => none
      else none
    | [] => none

/-- Leftmost match offset and length of the import pattern in the script. -/
def findImportPattern (sc : String) (mod : String) : Option (Nat × Nat) :=
  scanLeftIdx (importPatternHere mod.data) (sc.length + 1) 0 sc.data

/-- Word boundary `\b` at an offset. -/
def boundaryAt (s : List Char) (p : Nat) : Bool :=
  (if p = 0 then false else ((s.get? (p - 1)).map isW).getD false)
  ≠ (((s.get? p).map isW).getD false)

/-- Position loop for `findWordBound`. -/
def findWordBoundGo (s spec : List Char) : Nat → Nat → Option Nat
  | 0, _ => none
  | fuel + 1, i =>
    if boundaryAt s i && litStarts spec (s.drop i) && boundaryAt s (i + spec.length) then
      some i
    else if i < s.length then findWordBoundGo s spec fuel (i + 1)
    else none

/-- Leftmost match offset of `/\b<spec>\b/` in the script. -/
def findWordBound (s spec : List Char) : Option Nat :=
  findWordBoundGo s spec (s.length + 1) 0

/-- The findings `collectImportDiagnostics` contributes for one parsed
import: an information-severity note for an unregistered plugin module,
and a warning for each imported name absent from a known module's
declared exports. -/
def importDiags (sc : String) (scStart : Nat) (imp : ParsedImport) : List Diagnostic :=
  let resolved := resolveModule imp.module
  (if isPluginModule imp.module && !resolved.isKnown then
    match findImportPattern sc imp.module with
    | some (idx, len) =>
      [⟨.Information, scStart + idx, scStart + idx + len,
        "Unknown plugin module: \x27" ++ imp.module ++
          "\x27. Make sure the plugin is installed."⟩]
    | none => []
   else [])
  ++ (if resolved.isKnown then
        match resolved.metadata with
        | some md =>
          let validExports := md.exports.map (·.name)
          imp.specifiers.flatMap fun specifier =>
            if !validExports.contains specifier then
              match findWordBound sc.data specifier.data with
              | some idx =>
                [⟨.Warning, scStart + idx, scStart + idx + specifier.length,
                  "\x27" ++ specifier ++ "\x27 is not exported from \x27" ++
                    imp.module ++ "\x27"⟩]
              | none => []
            else []
        | none => []
      else [])

/-- `collectImportDiagnostics`. -/
def collectImportDiagnostics (text : String) : List Diagnostic :=
  match scriptContentOf text with
  | none => []
  | some (sc, scStart) =>
    (parseZenithImports sc).flatMap (importDiags sc scStart)

/-! ## Script symbol extraction (server, lines 142-209)

`extractStates` scans `/state\s+([a-zA-Z_$][a-zA-Z0-9_$]*)\s*=\s*([^;\n]+)/g`
and fills a JS `Map`; `extractFunctions` runs the named-function pattern and
then the arrow-function pattern; `extractLoopVariables` collects the
variables bound by each well-formed `zen:for` value. -/

/-- Attempt the state-declaration pattern at the current position.  The
`\s*` before the initializer backtracks (shorter whitespace runs let a
blank count as initializer text when only `;`, a newline or the end
follows), so the whitespace length is tried longest-first. -/
def stateHere (cs : List Char) : Option ((String × String) × Nat) :=
  match litP "state".data cs with
  | none => none
  | some r0 =>
    let w1 := r0.takeWhile jsWs
    match w1 with
    | [] => none
    | _ :: _ =>
      match identTake (r0.dropWhile jsWs) with
      | none => none
      | some (name, r1) =>
        let w2 := r1.takeWhile jsWs
        match r1.dropWhile jsWs with
        | '=' :: r2 =>
          let m := (r2.takeWhile jsWs).length
          (match (List.range (m + 1)).reverse.findSome? (fun a =>
            let r3 := r2.drop a
            match r3.takeWhile (fun c => c ≠ ';' && c ≠ '\n') with
            | [] => none
            | init => some (a, init)) with
          | some (a, init) =>
            some ((⟨name⟩, ⟨init⟩),
              5 + w1.length + name.length + w2.length + 1 + a + init.length)
          | none => none)
        | _ => none

/-- The (name, raw initializer) pairs found by the global state scan, in
scan order. -/
def stateScan (script : String) : List (String × String) :=
  (scanAll stateHere (script.length + 1) 0 script.data).map (·.2)

/-- `extractStates`: the scan folded into a JS `Map`, the initializer
trimmed at insertion. -/
def extractStates (script : String) : List (String × String) :=
  (stateScan script).foldl (fun m p => jsMapSet m p.1 (jsTrim p.2)) []

/-- A declared function symbol. -/
structure FuncInfo where
  name : String
  params : String
  isAsync : Bool
  deriving DecidableEq, Repr

/-- The part of the named-function pattern from the `function` keyword on:
`function\s+([a-zA-Z_$][a-zA-Z0-9_$]*)\s*\(([^)]*)\)`. -/
def funcCore (r : List Char) : Option (String × String × Nat) :=
  match litP "function".data r with
  | none => none
  | some r0 =>
    let w1 := r0.takeWhile jsWs
    match w1 with
    | [] => none
    | _ :: _ =>
      match identTake (r0.dropWhile jsWs) with
      | none => none
      | some (name, r1) =>
        let w2 := r1.takeWhile jsWs
        match r1.dropWhile jsWs with
        | '(' :: r2 =>
          let params := r2.takeWhile (· ≠ ')')
          (match r2.dropWhile (· ≠ ')') with
           | ')' :: _ =>
             some (⟨name⟩, ⟨params⟩,
               8 + w1.length + name.length + w2.length + 1 + params.length + 1)
           | _ => none)
        | _ => none

/-- Attempt `/(async\s+)?function\s+…\(([^)]*)\)/` at the current
position. -/
def funcHere (cs : List Char) : Option (FuncInfo × Nat) :=
  match (match litP "async".data cs with
         | some ra =>
           (match ra.takeWhile jsWs with
            | [] => none
            | w => (funcCore (ra.dropWhile jsWs)).map fun (n, p, len) =>
                (FuncInfo.mk n p true, 5 + w.length + len))
         | none => none) with
  | some m => some m
  | none => (funcCore cs).map fun (n, p, len) => (FuncInfo.mk n p false, len)

/-- Attempt the arrow-function pattern
`/(?:const|let)\s+([a-zA-Z_$][a-zA-Z0-9_$]*)\s*=\s*(async\s+)?\([^)]*\)\s*=>/`
at the current position. -/
def arrowHere (cs : List Char) : Option (FuncInfo × Nat) :=
  let kw : Option (Nat × List Char) :=
    match litP "const".data cs with
    | some r => some (5, r)
    | none =>
      match litP "let".data cs with
      | some r => some (3, r)
      | none => none
  match kw with
  | none => none
  | some (kwLen, r0) =>
    let w1 := r0.takeWhile jsWs
    match w1 with
    | [] => none
    | _ :: _ =>
      match identTake (r0.dropWhile jsWs) with
      | none => none
      | some (name, r1) =>
        let w2 := r1.takeWhile jsWs
        match r1.dropWhile jsWs with
        | '=' :: r2 =>
          let w3 := r2.takeWhile jsWs
          let r3 := r2.dropWhile jsWs
          let asyncPart : Option (Nat × Bool × List Char) :=
            match litP "async".data r3 with
            | some ra =>
              (match ra.takeWhile jsWs with
               | [] => none
               | w => some (5 + w.length, true, ra.dropWhile jsWs))
            | none => none
          let (aLen, isA, r4) := asyncPart.getD (0, false, r3)
          (match r4 with
           | '(' :: r5 =>
             let ps := r5.takeWhile (· ≠ ')')
             (match r5.dropWhile (· ≠ ')') with
              | ')' :: r6 =>
                let w4 := r6.takeWhile jsWs
                if litStarts "=>".data (r6.dropWhile jsWs) then
                  some (FuncInfo.mk ⟨name⟩ "" isA,
                    kwLen + w1.length + name.length + w2.length + 1 + w3.length +
                      aLen + 1 + ps.length + 1 + w4.length + 2)
                else none
              | _ => none)
           | _ => none)
        | _ => none

/-- `extractFunctions`: named functions first, then arrow functions. -/
def extractFunctions (script : String) : List FuncInfo :=
  (scanAll funcHere (script.length + 1) 0 script.data).map (·.2)
  ++ (scanAll arrowHere (script.length + 1) 0 script.data).map (·.2)

/-- Attempt the loop pattern `/zen:for\s*=\s*["']([^"']+)["']/` at the
current position (note the non-empty `[^"']+` value, unlike the directive
diagnostic pattern). -/
def loopHere (cs : List Char) : Option (String × Nat) :=
  match litP "zen:for".data cs with
  | none => none
  | some r0 =>
    let w1 := r0.takeWhile jsWs
    match r0.dropWhile jsWs with
    | '=' :: r1 =>
      let w2 := r1.takeWhile jsWs
      (match r1.dropWhile jsWs with
       | q :: r2 =>
         if q = '"' || q = '\'' then
           match r2.takeWhile (fun c => c ≠ '"' && c ≠ '\'') with
           | [] => none
           | v =>
             match r2.dropWhile (fun c => c ≠ '"' && c ≠ '\'') with
             | _ :: _ =>
               some (⟨v⟩, 7 + w1.length + 1 + w2.length + 1 + v.length + 1)
             | [] => none
         else none
       | [] => none)
    | _ => none

/-- `extractLoopVariables`. -/
def extractLoopVariables (text : String) : List String :=
  (scanAll (fun cs => (loopHere cs).map fun (v, len) => ((v, len), len))
      (text.length + 1) 0 text.data).flatMap
    fun (_, (v, _)) =>
      match parseForExpression v with
      | some p => p.itemVar :: (match p.indexVar with | some ix => [ix] | none => [])
      | none => []

/-! ## The region classifier `getPositionContext` (server, lines 212-266)

The script/style sub-block tests count the matches of
`/<script[^>]*>/gi`, `/<\/script>/gi`, `/<style[^>]*>/gi` and
`/<\/style>/gi` in the text before the cursor; a region is active when its
opens strictly exceed its closes. -/

/-- Position loop for `countLit`: `skip` characters of the last match
remain to be stepped over; at `skip = 0` the position is tried. -/
def countLitGo (pat : List Char) : List Char → Nat → Nat
  | [], _ => 0
  | _ :: t, skip + 1 => countLitGo pat t skip
  | c :: t, 0 =>
    if ciStarts pat (c :: t) then 1 + countLitGo pat t (pat.length - 1)
    else countLitGo pat t 0

/-- Count the non-overlapping matches of the case-insensitive literal
`pat` (the `match(...).length` of a literal `gi` regex): each match
resumes past its own end, a failure advances one character. -/
def countLit (pat s : List Char) : Nat := countLitGo pat s 0

/-- Position loop for `countTag`; on a hit the scan steps over the match
up to and including the first `>`. -/
def countTagGo (pat : List Char) : List Char → Nat → Nat
  | [], _ => 0
  | _ :: t, skip + 1 => countTagGo pat t skip
  | c :: t, 0 =>
    if ciStarts pat (c :: t) then
      match ((c :: t).drop pat.length).drop
          (((c :: t).drop pat.length).takeWhile (· ≠ '>')).length with
      | '>' :: _ =>
        1 + countTagGo pat t
          (pat.length - 1 + (((c :: t).drop pat.length).takeWhile (· ≠ '>')).length + 1)
      | _ => countTagGo pat t 0
    else countTagGo pat t 0

/-- Count the non-overlapping matches of `pat[^>]*>` (case-insensitive
`pat`): on a hit the scan resumes after the first `>`; when no `>`
follows, the position cannot match and the scan advances one character. -/
def countTag (pat s : List Char) : Nat := countTagGo pat s 0

/-- `String.prototype.lastIndexOf` for a single character (`-1` when
absent). -/
def lastIdx (c : Char) (l : List Char) : Int :=
  match l.reverse.findIdx? (· = c) with
  | some j => (l.length : Int) - 1 - j
  | none => -1

/-- Does the text from the last `<` end in `=["'][^"']*` (the
inside-an-attribute-value test `/=["'][^"']*$/`)? -/
def attrValueTail (l : List Char) : Bool :=
  let r := l.reverse
  let nq := r.takeWhile (fun c => c ≠ '"' && c ≠ '\'')
  match r.drop nq.length with
  | q :: '=' :: _ => q = '"' || q = '\''
  | _ => false

/-- Tag-name characters after the first: `[A-Za-z0-9-]`. -/
def tagNameCont (c : Char) : Bool :=
  ('a' ≤ c && c ≤ 'z') || ('A' ≤ c && c ≤ 'Z') || ('0' ≤ c && c ≤ '9') || c = '-'

/-- Attempt `/<\/?([A-Za-z][A-Za-z0-9-]*)/` at the current position. -/
def tagNameHere (cs : List Char) : Option String :=
  match cs with
  | '<' :: r =>
    let r' := match r with | '/' :: r2 => r2 | _ => r
    (match r' with
     | c :: rest =>
       if ('a' ≤ c && c ≤ 'z') || ('A' ≤ c && c ≤ 'Z') then
         some ⟨c :: rest.takeWhile tagNameCont⟩
       else none
     | [] => none)
  | _ => none

/-- Start characters of the partial-word pattern `[a-zA-Z_$:@]`. -/
def cwStart (c : Char) : Bool :=
  ('a' ≤ c && c ≤ 'z') || ('A' ≤ c && c ≤ 'Z') || c = '_' || c = '$' || c = ':' || c = '@'

/-- Continuation characters `[a-zA-Z0-9_$:-]`. -/
def cwCont (c : Char) : Bool :=
  ('a' ≤ c && c ≤ 'z') || ('A' ≤ c && c ≤ 'Z') || ('0' ≤ c && c ≤ '9') ||
  c = '_' || c = '$' || c = ':' || c = '-'

/-- The partial word being typed: the leftmost suffix of the text before
the cursor matching `[a-zA-Z_$:@][a-zA-Z0-9_$:-]*$`. -/
def currentWordOf (before : List Char) : List Char :=
  let rev := before.reverse
  let run := rev.takeWhile cwCont
  match rev.drop run.length with
  | c :: _ =>
    if cwStart c then c :: run.reverse
    else run.reverse.dropWhile (fun x => !cwStart x)
  | [] => run.reverse.dropWhile (fun x => !cwStart x)

/-- Does the list end with the given character (`String.endsWith`)? -/
def endsWithChar (l : List Char) (c : Char) : Bool :=
  l.reverse.head? = some c

/-- The result record of `getPositionContext`. -/
structure PositionContext where
  inScript : Bool
  inStyle : Bool
  inTag : Bool
  inExpression : Bool
  inTemplate : Bool
  inAttributeValue : Bool
  tagName : Option String
  currentWord : String
  afterAt : Bool
  afterColon : Bool
  deriving DecidableEq, Repr

/-- `getPositionContext`. -/
def getPositionContext (text : String) (offset : Nat) : PositionContext :=
  let before := text.data.take offset
  let scriptOpens := countTag "<script".data before
  let scriptCloses := countLit "</script>".data before
  let inScript := decide (scriptCloses < scriptOpens)
  let styleOpens := countTag "<style".data before
  let styleCloses := countLit "</style>".data before
  let inStyle := decide (styleCloses < styleOpens)
  let lastTagOpen := lastIdx '<' before
  let lastTagClose := lastIdx '>' before
  let inTag := decide (lastTagClose < lastTagOpen)
  let lastBraceOpen := lastIdx '{' before
  let lastBraceClose := lastIdx '}' before
  let inExpression := decide (lastBraceClose < lastBraceOpen) && !inScript && !inStyle
  let inTemplate := !inScript && !inStyle
  let afterLastTag := before.drop lastTagOpen.toNat
  let inAttributeValue := inTag && attrValueTail afterLastTag
  let tagName :=
    if inTag then scanLeft tagNameHere (afterLastTag.length + 1) afterLastTag
    else none
  let cw : String := ⟨currentWordOf before⟩
  let afterAt := endsWithChar before '@' || jsStartsWith cw "@"
  let afterColon := endsWithChar before ':' || (jsStartsWith cw ":" && !(jsStartsWith cw ":"))
  { inScript := inScript
    inStyle := inStyle
    inTag := inTag
    inExpression := inExpression
    inTemplate := inTemplate
    inAttributeValue := inAttributeValue
    tagName := tagName
    currentWord := cw
    afterAt := afterAt
    afterColon := afterColon }

/-! ## Router metadata (the router module) -/

/-- `RouterHookMetadata`. -/
structure RouterHookMetadata where
  name : String
  owner : String
  description : String
  restrictions : String
  returns : String
  signature : String
  deriving DecidableEq, Repr

/-- The `ROUTER_HOOKS` table (iterated in `Object.values` order). -/
def ROUTER_HOOKS : List (String × RouterHookMetadata) :=
  [("useRoute",
    { name := "useRoute"
      owner := "Router Hook (zenith/router)"
      description := "Provides reactive access to the current route state."
      restrictions := "Must be called at top-level script scope."
      returns := "\x7b path: string; params: Record<string, string>; query: Record<string, string> \x7d"
      signature := "useRoute(): RouteState" }),
   ("useRouter",
    { name := "useRouter"
      owner := "Router Hook (zenith/router)"
      description := "Provides programmatic navigation methods."
      restrictions := "Must be called at top-level script scope."
      returns := "\x7b navigate, back, forward, go \x7d"
      signature := "useRouter(): Router" })]

/-- `getRouterHook`. -/
def getRouterHook (name : String) : Option RouterHookMetadata :=
  jsLookup ROUTER_HOOKS name

/-- `isRouterHook`. -/
def isRouterHook (name : String) : Bool :=
  ROUTER_HOOKS.any (·.1 = name)

/-- `RouteFieldMetadata` (the TS `type` field is called `typ` here,
`type` being a Lean keyword). -/
structure RouteFieldMetadata where
  name : String
  typ : String
  description : String
  deriving DecidableEq, Repr

/-- The `ROUTE_FIELDS` table. -/
def ROUTE_FIELDS : List RouteFieldMetadata :=
  [⟨"path", "string", "The current route path (e.g., \"/blog/my-post\")."⟩,
   ⟨"params", "Record<string, string>",
    "Dynamic route parameters (e.g., \x7b slug: \"my-post\" \x7d)."⟩,
   ⟨"query", "Record<string, string>",
    "Query string parameters (e.g., \x7b page: \"1\" \x7d)."⟩]

/-! ## Completion items (server, lines 75-141 and 306-447)

Items keep the fields the claims reason about (label, kind, detail, sort
key); documentation and snippet texts are carried by the metadata tables
and omitted from the items themselves. -/

/-- The completion-item categories used by the server. -/
inductive CompletionItemKind where
  | Keyword
  | Function
  | Variable
  | Module
  | Property
  | Class
  | Event
  deriving DecidableEq, Repr

/-- One completion suggestion. -/
structure CompletionItem where
  label : String
  kind : CompletionItemKind
  detail : Option String
  sortText : Option String
  deriving DecidableEq, Repr

/-- An entry of `LIFECYCLE_HOOKS`. -/
structure LifecycleHook where
  name : String
  doc : String
  snippet : String
  kind : CompletionItemKind
  deriving DecidableEq, Repr

/-- The `LIFECYCLE_HOOKS` table. -/
def LIFECYCLE_HOOKS : List LifecycleHook :=
  [⟨"state", "Declare a reactive state variable",
    "state $\x7b1:name\x7d = $\x7b2:value\x7d", .Keyword⟩,
   ⟨"zenOnMount", "Called when component is mounted to the DOM",
    "zenOnMount(() => \x7b\n\t$0\n\x7d)", .Function⟩,
   ⟨"zenOnDestroy", "Called when component is removed from the DOM",
    "zenOnDestroy(() => \x7b\n\t$0\n\x7d)", .Function⟩,
   ⟨"zenOnUpdate", "Called after any state update causes a re-render",
    "zenOnUpdate(() => \x7b\n\t$0\n\x7d)", .Function⟩,
   ⟨"zenEffect", "Reactive effect that re-runs when dependencies change",
    "zenEffect(() => \x7b\n\t$0\n\x7d)", .Function⟩,
   ⟨"useFetch", "Fetch data with caching and SSG support",
    "useFetch(\"$\x7b1:url\x7d\")", .Function⟩]

/-- `getAllModules` (core entries first, then plugin entries, each with
its `'core'`/`'plugin'` tag and description). -/
def getAllModules : List (String × String × String) :=
  CORE_MODULES.map (fun p => (p.1, "core", p.2.description))
  ++ PLUGIN_MODULES.map (fun p => (p.1, "plugin", p.2.description))

/-- `getModuleExports`. -/
def getModuleExports (moduleName : String) : List ModuleExport :=
  match getCoreModule moduleName with
  | some m => m.exports
  | none =>
    match getPluginModule moduleName with
    | some m => m.exports
    | none => []

/-- The case-insensitive starts-with filter
`name.toLowerCase().startsWith(word.toLowerCase())`. -/
def jsLowerStarts (name word : String) : Bool :=
  litStarts (word.data.map lc) (name.data.map lc)

/-- Does the line before the cursor end inside an import path
(`/from\s+['"][^'"]*$/` with the given keyword)? -/
def importPathTail (kw : List Char) (l : List Char) : Bool :=
  let r := l.reverse
  let nq := r.takeWhile (fun c => c ≠ '"' && c ≠ '\'')
  match r.drop nq.length with
  | q :: rest =>
    (q = '"' || q = '\'') &&
    (match rest.takeWhile jsWs with
     | [] => false
     | w => litStarts kw.reverse (rest.drop w.length))
  | [] => false

/-- The script-context section of `onCompletion` (lines 328-399):
lifecycle hooks, router hooks when the router is imported, declared
functions, state variables — each tier filtered by the case-insensitive
starts-with test against the partial word — and the unfiltered
import-path module tier. -/
def scriptCompletions (cw : String) (lineBefore : String)
    (states : List (String × String)) (functions : List FuncInfo)
    (routerEnabled : Bool) : List CompletionItem :=
  (LIFECYCLE_HOOKS.filterMap fun hook =>
    if cw = "" || jsLowerStarts hook.name cw then
      some { label := hook.name
             kind := hook.kind
             detail := some (if hook.name = "state" then "Zenith State" else "Zenith Lifecycle")
             sortText := some ("0_" ++ hook.name) }
    else none)
  ++ (if routerEnabled then
        ROUTER_HOOKS.filterMap fun p =>
          if cw = "" || jsLowerStarts p.2.name cw then
            some { label := p.2.name
                   kind := .Function
                   detail := some p.2.owner
                   sortText := some ("0_" ++ p.2.name) }
          else none
      else [])
  ++ (functions.filterMap fun func =>
      if cw = "" || jsLowerStarts func.name cw then
        some { label := func.name
               kind := .Function
               detail := some ((if func.isAsync then "async " else "") ++
                 "function " ++ func.name ++ "(" ++ func.params ++ ")")
               sortText := none }
      else none)
  ++ (states.filterMap fun p =>
      if cw = "" || jsLowerStarts p.1 cw then
        some { label := p.1
               kind := .Variable
               detail := some ("state " ++ p.1)
               sortText := none }
      else none)
  ++ (if importPathTail "from".data lineBefore.data ||
         importPathTail "import".data lineBefore.data then
        getAllModules.map fun m =>
          { label := m.1
            kind := .Module
            detail := some (if m.2.1 = "plugin" then "Zenith Plugin" else "Zenith Core")
            sortText := none }
      else [])

/-- The expression-context section of `onCompletion` (lines 401-447):
state variables, functions, loop variables, and — when the router is
imported — the route fields; none of these four tiers consults the
partial word. -/
def exprCompletions (states : List (String × String)) (functions : List FuncInfo)
    (loopVars : List String) (routerEnabled : Bool) : List CompletionItem :=
  (states.map fun p =>
    { label := p.1
      kind := .Variable
      detail := some ("state " ++ p.1)
      sortText := some ("0_" ++ p.1) })
  ++ (functions.map fun func =>
      { label := func.name
        kind := .Function
        detail := some ((if func.isAsync then "async " else "") ++ "function")
        sortText := some ("1_" ++ func.name) })
  ++ (loopVars.map fun v =>
      { label := v
        kind := .Variable
        detail := some "loop variable"
        sortText := some ("0_" ++ v) })
  ++ (if routerEnabled then
        ROUTE_FIELDS.map fun f =>
          { label := "route." ++ f.name
            kind := .Property
            detail := some f.typ
            sortText := some ("2_route_" ++ f.name) }
      else [])

/-- `lastIndexOf('\n', from)` with the clamping semantics of JS
(a negative `from` searches only index 0). -/
def jsLastNlFrom (l : List Char) (f : Int) : Int :=
  let p : Nat := if f < 0 then 0 else min f.toNat (l.length - 1)
  match (l.take (p + 1)).reverse.findIdx? (· = '\n') with
  | some j => ((l.take (p + 1)).length : Int) - 1 - j
  | none => -1

/-- `String.prototype.substring` (negative arguments clamp to 0, reversed
arguments swap). -/
def jsSub (l : List Char) (a b : Int) : List Char :=
  let a' := min (max a 0).toNat l.length
  let b' := min (max b 0).toNat l.length
  if a' ≤ b' then (l.take b').drop a' else (l.take a').drop b'

/-- The script-context and expression-context portions of the completion
handler, assembled from the document exactly as `connection.onCompletion`
does (lines 306-447); the later template / tag / attribute-value sections
of the handler are outside this development's scope and none of the
claims touch them. -/
def onCompletionScriptExpr (text : String) (offset : Nat) : List CompletionItem :=
  let ctx := getPositionContext text offset
  let script := getScriptContent text
  let states := extractStates script
  let functions := extractFunctions script
  let imports := parseZenithImports script
  let routerEnabled := hasRouterImport imports
  let loopVariables := extractLoopVariables text
  let lineStart := jsLastNlFrom text.data ((offset : Int) - 1) + 1
  let lineBefore : String := ⟨jsSub text.data lineStart (offset : Int)⟩
  (if ctx.inScript then
    scriptCompletions ctx.currentWord lineBefore states functions routerEnabled
   else [])
  ++ (if ctx.inExpression then
        exprCompletions states functions loopVariables routerEnabled
      else [])

/-! ## Directive metadata (src/metadata/directive-metadata.ts)

The TS fields `syntax` and `example` collide with Lean keywords and are
called `usage` and `sample` here. -/

/-- `DirectiveMetadata`. -/
structure DirectiveMetadata where
  name : String
  category : String
  description : String
  usage : String
  placement : List String
  sample : String
  createsScope : Option Bool
  scopeVariables : Option (List String)
  deriving DecidableEq, Repr

/-- The `DIRECTIVES` table. -/
def DIRECTIVES : List (String × DirectiveMetadata) :=
  [("zen:if",
    { name := "zen:if"
      category := "control-flow"
      description := "Compile-time conditional directive. Conditionally renders the element based on a boolean expression."
      usage := "zen:if=\"condition\""
      placement := ["element", "component"]
      sample := "<div zen:if=\"isVisible\">Conditionally rendered</div>"
      createsScope := none
      scopeVariables := none }),
   ("zen:for",
    { name := "zen:for"
      category := "iteration"
      description := "Compile-time iteration directive. Repeats the element for each item in a collection."
      usage := "zen:for=\"item in items\" or zen:for=\"item, index in items\""
      placement := ["element", "component"]
      sample := "<li zen:for=\"item in items\">\x7bitem.name\x7d</li>"
      createsScope := some true
      scopeVariables := some ["item", "index"] }),
   ("zen:effect",
    { name := "zen:effect"
      category := "reactive-effect"
      description := "Compile-time reactive effect directive. Attaches a side effect to the element lifecycle."
      usage := "zen:effect=\"expression\""
      placement := ["element", "component"]
      sample := "<div zen:effect=\"console.log(\x27rendered\x27)\">Content</div>"
      createsScope := none
      scopeVariables := none }),
   ("zen:show",
    { name := "zen:show"
      category := "conditional-visibility"
      description := "Compile-time visibility directive. Toggles element visibility without removing from DOM."
      usage := "zen:show=\"condition\""
      placement := ["element", "component"]
      sample := "<div zen:show=\"isOpen\">Toggle visibility</div>"
      createsScope := none
      scopeVariables := none })]

/-- `isDirective`. -/
def isDirective (name : String) : Bool :=
  DIRECTIVES.any (·.1 = name)

/-- `getDirective`. -/
def getDirective (name : String) : Option DirectiveMetadata :=
  jsLookup DIRECTIVES name

/-- `getDirectiveNames`. -/
def getDirectiveNames : List String := DIRECTIVES.map (·.1)

/-- `canPlaceDirective` (directives are never allowed on `<slot>`). -/
def canPlaceDirective (directiveName elementType : String) : Bool :=
  match jsLookup DIRECTIVES directiveName with
  | none => false
  | some d => if elementType = "slot" then false else d.placement.contains elementType

/-! ## HTML vocabulary (server, lines 85-128) -/

/-- One entry of `HTML_ELEMENTS`. -/
structure HtmlElement where
  tag : String
  doc : String
  attrs : Option String
  selfClosing : Bool
  deriving DecidableEq, Repr

/-- The `HTML_ELEMENTS` table. -/
def HTML_ELEMENTS : List HtmlElement :=
  [⟨"div", "Generic container element", none, false⟩,
   ⟨"span", "Inline container element", none, false⟩,
   ⟨"p", "Paragraph element", none, false⟩,
   ⟨"a", "Anchor/link element", some "href=\"$1\"", false⟩,
   ⟨"button", "Button element", some "onclick=\x7b$1\x7d", false⟩,
   ⟨"input", "Input element", some "type=\"$1\"", true⟩,
   ⟨"img", "Image element", some "src=\"$1\" alt=\"$2\"", true⟩,
   ⟨"h1", "Heading level 1", none, false⟩,
   ⟨"h2", "Heading level 2", none, false⟩,
   ⟨"h3", "Heading level 3", none, false⟩,
   ⟨"h4", "Heading level 4", none, false⟩,
   ⟨"h5", "Heading level 5", none, false⟩,
   ⟨"h6", "Heading level 6", none, false⟩,
   ⟨"ul", "Unordered list", none, false⟩,
   ⟨"ol", "Ordered list", none, false⟩,
   ⟨"li", "List item", none, false⟩,
   ⟨"nav", "Navigation section", none, false⟩,
   ⟨"header", "Header section", none, false⟩,
   ⟨"footer", "Footer section", none, false⟩,
   ⟨"main", "Main content", none, false⟩,
   ⟨"section", "Generic section", none, false⟩,
   ⟨"article", "Article content", none, false⟩,
   ⟨"aside", "Sidebar content", none, false⟩,
   ⟨"form", "Form element", none, false⟩,
   ⟨"label", "Form label", some "for=\"$1\"", false⟩,
   ⟨"select", "Dropdown select", none, false⟩,
   ⟨"option", "Select option", some "value=\"$1\"", false⟩,
   ⟨"textarea", "Multi-line text input", none, false⟩,
   ⟨"table", "Table element", none, false⟩,
   ⟨"thead", "Table header group", none, false⟩,
   ⟨"tbody", "Table body group", none, false⟩,
   ⟨"tr", "Table row", none, false⟩,
   ⟨"th", "Table header cell", none, false⟩,
   ⟨"td", "Table data cell", none, false⟩,
   ⟨"br", "Line break", none, true⟩,
   ⟨"hr", "Horizontal rule", none, true⟩,
   ⟨"strong", "Strong emphasis (bold)", none, false⟩,
   ⟨"em", "Emphasis (italic)", none, false⟩,
   ⟨"code", "Inline code", none, false⟩,
   ⟨"pre", "Preformatted text", none, false⟩,
   ⟨"blockquote", "Block quotation", none, false⟩,
   ⟨"slot", "Zenith slot for child content", none, false⟩]

/-! ## Project graph (src/project.ts data model) -/

/-- `ComponentInfo` (the TS field `type` is called `typ` here). -/
structure ComponentInfo where
  name : String
  filePath : String
  typ : String
  props : List String
  deriving DecidableEq, Repr

/-- `ProjectGraph`. -/
structure ProjectGraph where
  root : String
  layouts : List (String × ComponentInfo)
  components : List (String × ComponentInfo)
  pages : List (String × ComponentInfo)
  deriving DecidableEq, Repr

/-- `resolveComponent`: layouts first, then components. -/
def resolveComponent (graph : ProjectGraph) (name : String) : Option ComponentInfo :=
  match jsLookup graph.layouts name with
  | some c => some c
  | none => jsLookup graph.components name

/-! ## Project-graph cache (server, lines 269-291)

`detectProjectRoot` walks the file system, which stays outside the model:
the composition `uri ↦ detectProjectRoot(path.dirname(uri-path))` is
passed in as the `detect` parameter.  The cache itself is the module-level
`projectGraphs` map, keyed by project root. -/

/-- `uri.replace('file://', '')`: remove the first occurrence of a
substring. -/
def replaceFirstSub (pat rep l : List Char) : List Char :=
  match indexOfSub pat l with
  | some i => l.take i ++ rep ++ l.drop (i + pat.length)
  | none => l

/-- The path of a document URI (`uri.replace('file://', '')`). -/
def stripFileScheme (uri : String) : String :=
  ⟨replaceFirstSub "file://".data [] uri.data⟩

/-- `invalidateProjectGraph`: drop the cache entry keyed by the changed
URI's own detected project root; a URI with no detectable root leaves the
cache untouched. -/
def invalidateProjectGraph (detect : String → Option String)
    (graphs : List (String × ProjectGraph)) (uri : String) :
    List (String × ProjectGraph) :=
  match detect (stripFileScheme uri) with
  | some root => jsMapDelete graphs root
  | none => graphs

/-- `getProjectGraph`, with the root detection and the full rebuild
(`buildProjectGraph`, a file-system traversal) passed in as parameters:
returns the served graph and the updated cache. -/
def getProjectGraphCached (detect : String → Option String)
    (build : String → ProjectGraph)
    (graphs : List (String × ProjectGraph)) (uri : String) :
    Option ProjectGraph × List (String × ProjectGraph) :=
  match detect (stripFileScheme uri) with
  | none => (none, graphs)
  | some root =>
    let graphs' :=
      if (jsLookup graphs root).isSome then graphs
      else jsMapSet graphs root (build root)
    (jsLookup graphs' root, graphs')

/-! ## Hover (server, lines 670-812) -/

/-- Characters of the word part before the cursor: `[a-zA-Z0-9_$:@-]`. -/
def hoverWordChar (c : Char) : Bool :=
  ('a' ≤ c && c ≤ 'z') || ('A' ≤ c && c ≤ 'Z') || ('0' ≤ c && c ≤ '9') ||
  c = '_' || c = '$' || c = ':' || c = '@' || c = '-'

/-- Characters of the word part after the cursor: `[a-zA-Z0-9_$:-]`. -/
def hoverAfterChar (c : Char) : Bool :=
  ('a' ≤ c && c ≤ 'z') || ('A' ≤ c && c ≤ 'Z') || ('0' ≤ c && c ≤ '9') ||
  c = '_' || c = '$' || c = ':' || c = '-'

/-- The word spanning the cursor: the maximal run of word characters
before the offset concatenated with the maximal run after it. -/
def hoverWordAt (text : String) (offset : Nat) : String :=
  let before := text.data.take offset
  let after := text.data.drop offset
  ⟨(before.reverse.takeWhile hoverWordChar).reverse ++ after.takeWhile hoverAfterChar⟩

/-- `replace(/\$\d/g, '')` on a snippet. -/
def stripDollarDigits : List Char → List Char
  | [] => []
  | '$' :: c :: t =>
    if '0' ≤ c && c ≤ '9' then stripDollarDigits t
    else '$' :: stripDollarDigits (c :: t)
  | c :: t => c :: stripDollarDigits t

/-- The hover markdown for a directive. -/
def directiveHoverMd (d : DirectiveMetadata) : String :=
  let notes :=
    if d.name = "zen:for" then
      "- No runtime loop\n- Compiled into static DOM instructions\n- Creates scope: `item`, `index`"
    else
      "- Compile-time directive\n- No runtime assumptions\n- Processed at build time"
  "### " ++ d.name ++ "\n\n" ++ d.description ++ "\n\n**Syntax:** `" ++ d.usage ++
    "`\n\n**Notes:**\n" ++ notes ++ "\n\n**Example:**\n```html\n" ++ d.sample ++ "\n```"

/-- The hover markdown for a router hook. -/
def routerHookHoverMd (h : RouterHookMetadata) : String :=
  "### " ++ h.name ++ "()\n\n**" ++ h.owner ++ "**\n\n" ++ h.description ++
    "\n\n**Restrictions:** " ++ h.restrictions ++ "\n\n**Returns:** `" ++ h.returns ++
    "`\n\n**Signature:**\n```typescript\n" ++ h.signature ++ "\n```"

/-- The hover markdown for a lifecycle hook (placeholders scrubbed from
the snippet). -/
def lifecycleHoverMd (h : LifecycleHook) : String :=
  let cleaned : String :=
    ⟨replaceFirstSub "$0".data "// ...".data (stripDollarDigits h.snippet.data)⟩
  "### " ++ h.name ++ "\n\n" ++ h.doc ++ "\n\n```typescript\n" ++ cleaned ++ "\n```"

/-- The fixed `<ZenLink>` hover markdown. -/
def zenLinkHoverMd : String :=
  "### `<ZenLink>`\n\n**Router Component** (zenith/router)\n\nDeclarative navigation component for routes.\n\n**Props:**\n- `to` (string, required) - Route path\n- `preload` (boolean) - Prefetch on hover\n- `replace` (boolean) - Replace history entry\n- `class` (string) - CSS class\n- `activeClass` (string) - Class when active"

/-- The hover markdown for a declared state variable. -/
def stateHoverMd (word value : String) : String :=
  "### state `" ++ word ++ "`\n\n**Type:** inferred\n\n**Initial value:** `" ++ value ++ "`"

/-- The hover markdown for a declared function. -/
def funcHoverMd (f : FuncInfo) : String :=
  "### " ++ (if f.isAsync then "async " else "") ++ "function `" ++ f.name ++
    "`\n\n```typescript\n" ++ (if f.isAsync then "async " else "") ++ "function " ++
    f.name ++ "(" ++ f.params ++ ")\n```"

/-- The hover markdown for an imported symbol. -/
def importedHoverMd (word moduleName : String) (em : ModuleExport) : String :=
  let owner :=
    match (resolveModule moduleName).kind with
    | .plugin => "Plugin"
    | .core => "Core"
    | .external => "External"
  "### " ++ word ++ "\n\n**" ++ owner ++ "** (" ++ moduleName ++ ")\n\n" ++
    em.description ++ "\n\n**Signature:**\n```typescript\n" ++
    (em.signature.getD word) ++ "\n```"

/-- The hover markdown for a project component. -/
def componentHoverMd (c : ComponentInfo) : String :=
  let propsTxt := String.intercalate ", " c.props
  "### " ++ c.typ ++ " `<" ++ c.name ++ ">`\n\n**File:** `" ++ c.filePath ++
    "`\n\n**Props:** " ++ (if propsTxt = "" then "none" else propsTxt)

/-- The hover markdown for an HTML element. -/
def htmlHoverMd (e : HtmlElement) : String :=
  "### HTML `<" ++ e.tag ++ ">`\n\n" ++ e.doc

/-- `connection.onHover`, translated with its early-return chain as nested
fallthroughs; the project graph obtained from `getProjectGraph` is a
parameter. -/
def onHoverModel (text : String) (offset : Nat) (graph : Option ProjectGraph) :
    Option String :=
  let word := hoverWordAt text offset
  if word = "" then none
  else
    let script := getScriptContent text
    let states := extractStates script
    let functions := extractFunctions script
    let imports := parseZenithImports script
    let step9 :=
      match HTML_ELEMENTS.find? (·.tag = word) with
      | some el => some (htmlHoverMd el)
      | none => none
    let step8 :=
      match graph with
      | some g =>
        (match resolveComponent g word with
         | some comp => some (componentHoverMd comp)
         | none => step9)
      | none => step9
    let step7 :=
      match imports.findSome? (fun imp =>
        if imp.specifiers.contains word then
          (resolveExport imp.module word).map (importedHoverMd word imp.module)
        else none) with
      | some h => some h
      | none => step8
    let step6 :=
      match functions.find? (·.name = word) with
      | some f => some (funcHoverMd f)
      | none => step7
    let step5 :=
      match jsLookup states word with
      | some v => some (stateHoverMd word v)
      | none => step6
    let step4 :=
      if word = "ZenLink" && hasRouterImport imports then some zenLinkHoverMd
      else step5
    let step3 :=
      match LIFECYCLE_HOOKS.find? (·.name = word) with
      | some h => some (lifecycleHoverMd h)
      | none => step4
    let step2 :=
      if isRouterHook word then
        match getRouterHook word with
        | some h => some (routerHookHoverMd h)
        | none => step3
      else step3
    if isDirective word then
      match getDirective word with
      | some d => some (directiveHoverMd d)
      | none => step2
    else step2

/-! ## The spec-side precedence chain for hover

Nine knowledge sources, one partial resolver each, consulted in the
spec's fixed order with first-match-wins; `hoverOrdered` is the
specification-shaped restatement that theorem `C7` compares with the
translated handler `onHoverModel`. -/

/-- Source 1: directive vocabulary. -/
def hoverDirective (word : String) : Option String :=
  (getDirective word).map directiveHoverMd

/-- Source 2: framework navigation (router) hooks. -/
def hoverRouterHook (word : String) : Option String :=
  (getRouterHook word).map routerHookHoverMd

/-- Source 3: lifecycle hooks. -/
def hoverLifecycle (word : String) : Option String :=
  (LIFECYCLE_HOOKS.find? (·.name = word)).map lifecycleHoverMd

/-- Source 4: the navigation-link component, only when the router module
is imported in this document. -/
def hoverZenLink (word : String) (routerImported : Bool) : Option String :=
  if word = "ZenLink" && routerImported then some zenLinkHoverMd else none

/-- Source 5: declared state. -/
def hoverState (states : List (String × String)) (word : String) : Option String :=
  (jsLookup states word).map (stateHoverMd word)

/-- Source 6: declared functions. -/
def hoverFunc (functions : List FuncInfo) (word : String) : Option String :=
  (functions.find? (·.name = word)).map funcHoverMd

/-- Source 7: imported symbols through the import resolver. -/
def hoverImported (imports : List ParsedImport) (word : String) : Option String :=
  imports.findSome? fun imp =>
    if imp.specifiers.contains word then
      (resolveExport imp.module word).map (importedHoverMd word imp.module)
    else none

/-- Source 8: project-graph components. -/
def hoverComponent (graph : Option ProjectGraph) (word : String) : Option String :=
  graph.bind fun g => (resolveComponent g word).map componentHoverMd

/-- Source 9: the generic markup vocabulary. -/
def hoverHtml (word : String) : Option String :=
  (HTML_ELEMENTS.find? (·.tag = word)).map htmlHoverMd

/-- First-match-wins over a list of resolver results. -/
def firstSome {α : Type} : List (Option α) → Option α
  | [] => none
  | some a :: _ => some a
  | none :: t => firstSome t

/-- The hover contract as the spec words it: an empty word resolves to
nothing, otherwise the nine sources are consulted in the fixed precedence
order and the first match wins. -/
def hoverOrdered (text : String) (offset : Nat) (graph : Option ProjectGraph) :
    Option String :=
  let word := hoverWordAt text offset
  if word = "" then none
  else
    let script := getScriptContent text
    let imports := parseZenithImports script
    firstSome
      [hoverDirective word,
       hoverRouterHook word,
       hoverLifecycle word,
       hoverZenLink word (hasRouterImport imports),
       hoverState (extractStates script) word,
       hoverFunc (extractFunctions script) word,
       hoverImported imports word,
       hoverComponent graph word,
       hoverHtml word]

/-! ## Well-formed documents for the region-classifier claim

A document prefix is well formed for an offset inside a script body when
it renders as: alternating marker-free plain text and closed script/style
blocks, then plain text, then an open script tag and part of its body.
`markerFree` forbids the four region markers inside plain text, attribute
text and block bodies; `attrsOk` additionally forbids `>` (the regex's
`[^>]*`) and a close marker completed by the tag's own `>`. -/

/-- No case-insensitive occurrence of `pat` begins inside `s`. -/
def occFree (pat s : List Char) : Bool :=
  (List.range s.length).all fun i => !(ciStarts pat (s.drop i))

/-- None of the four region markers begins inside `s`. -/
def markerFree (s : List Char) : Bool :=
  occFree "<script".data s && occFree "</script>".data s &&
  occFree "<style".data s && occFree "</style>".data s

/-- Conditions on the attribute text of an open tag. -/
def attrsOk (a : List Char) : Bool :=
  !a.contains '>' && markerFree (a ++ ['>'])

/-- A closed script or style sub-block. -/
inductive Chunk where
  | scriptBlock (attrs body : List Char)
  | styleBlock (attrs body : List Char)
  deriving DecidableEq, Repr

/-- The rendered text of a closed block. -/
def Chunk.render : Chunk → List Char
  | .scriptBlock a b => "<script".data ++ a ++ '>' :: (b ++ "</script>".data)
  | .styleBlock a b => "<style".data ++ a ++ '>' :: (b ++ "</style>".data)

/-- Side conditions of a closed block. -/
def Chunk.ok : Chunk → Bool
  | .scriptBlock a b => attrsOk a && markerFree b
  | .styleBlock a b => attrsOk a && markerFree b

/-- Rendered alternation of plain text and closed blocks. -/
def renderPairs (l : List (List Char × Chunk)) : List Char :=
  l.foldr (fun p acc => p.1 ++ p.2.render ++ acc) []

/-- The document prefix before an offset strictly inside a script body. -/
def renderBefore (pairs : List (List Char × Chunk))
    (lastPlain attrs bodyPre : List Char) : List Char :=
  renderPairs pairs ++ lastPlain ++ "<script".data ++ attrs ++ '>' :: bodyPre

/-- All well-formedness side conditions of such a prefix. -/
def prefixOk (pairs : List (List Char × Chunk))
    (lastPlain attrs bodyPre : List Char) : Bool :=
  pairs.all (fun p => markerFree p.1 && p.2.ok) &&
  markerFree lastPlain && attrsOk attrs && markerFree bodyPre

/-- No `<` occurs in the tail of a marker pattern (straddle witness). -/
def noLtTail (pat : List Char) : Bool :=
  (pat.drop 1).all fun c => !(lcEq c '<')

/-- `>` occurs in a marker pattern only as its last character. -/
def gtOnlyLast (pat : List Char) : Bool :=
  (List.range pat.length).all fun j =>
    match pat.get? j with
    | some c => !(lcEq c '>') || decide (j = pat.length - 1)
    | none => true

/-- Starting anywhere inside `lit`, the pattern hits a case-insensitive
mismatch before `lit` ends (so no occurrence can begin inside `lit`,
whatever follows it). -/
def mismatchInside (pat lit : List Char) : Bool :=
  (List.range lit.length).all fun i =>
    (List.range (lit.length - i)).any fun j =>
      match pat.get? j, lit.get? (i + j) with
      | some c, some c' => !(lcEq c c')
      | _, _ => false

/-- Is the chunk a script block? -/
def chunkIsScript : Chunk → Bool
  | .scriptBlock _ _ => true
  | .styleBlock _ _ => false

/-- Is the chunk a style block? -/
def chunkIsStyle : Chunk → Bool
  | .scriptBlock _ _ => false
  | .styleBlock _ _ => true

/-! # Theorems -/

/-- `isCoreModule` holds exactly for the two core registry keys. -/
theorem isCoreModule_cases (s : String) :
    isCoreModule s = true ↔ s = "zenith" ∨ s = "zenith/router" := by
  simp [isCoreModule, CORE_MODULES]
  constructor
  · rintro (h | h) <;> exact Or.imp Eq.symm Eq.symm (by tauto)
  · rintro (h | h) <;> subst h <;> tauto

/-- C2: `resolveModule` is total: every specifier lands in exactly one of
the three kinds — core exactly when the specifier is a core registry key
(and then `isKnown` is true), plugin exactly when it is a non-core
`zenith:` specifier, external otherwise — and the core and plugin
predicates themselves never overlap. -/
theorem C2_resolveModule_total (s : String) :
    (((resolveModule s).kind = ModuleKind.core ∧ isCoreModule s = true ∧
        (resolveModule s).isKnown = true)
      ∨ ((resolveModule s).kind = ModuleKind.plugin ∧ isCoreModule s = false ∧
          isPluginModule s = true)
      ∨ ((resolveModule s).kind = ModuleKind.external ∧ isCoreModule s = false ∧
          isPluginModule s = false))
    ∧ (isCoreModule s && isPluginModule s) = false := by
  constructor
  · by_cases hc : isCoreModule s = true
    · exact Or.inl ⟨by simp [resolveModule, hc], hc, by simp [resolveModule, hc]⟩
    · have hc' : isCoreModule s = false := by simpa using hc
      by_cases hp : isPluginModule s = true
      · exact Or.inr (Or.inl ⟨by simp [resolveModule, hc', hp], hc', hp⟩)
      · have hp' : isPluginModule s = false := by simpa using hp
        exact Or.inr (Or.inr ⟨by simp [resolveModule, hc', hp'], hc', hp'⟩)
  · by_cases hc : isCoreModule s = true
    · rcases (isCoreModule_cases s).1 hc with h | h <;> subst h <;> decide
    · simp [by simpa using hc]

/-- C3: the iteration-directive value parser accepts `"item in items"`
(binding the item variable and the source) and
`"item, index in items"` (also binding the index variable), and rejects
`"in items"`, `"item items"` and the empty string. -/
theorem C3_parseForExpression_cases :
    parseForExpression "item in items" = some ⟨"item", none, "items"⟩
    ∧ parseForExpression "item, index in items" =
        some ⟨"item", some "index", "items"⟩
    ∧ parseForExpression "in items" = none
    ∧ parseForExpression "item items" = none
    ∧ parseForExpression "" = none := by
  refine ⟨?_, ?_, ?_, ?_, ?_⟩ <;> decide

/-- The head of a `dropWhile` residue fails the predicate. -/
theorem dropWhile_head_false {α : Type} {p : α → Bool} :
    ∀ {l : List α} {c : α} {t : List α}, l.dropWhile p = c :: t → p c = false := by
  intro l
  induction l with
  | nil => intro c t h; cases h
  | cons x xs ih =>
    intro c t h
    by_cases hx : p x = true
    · exact ih (by simpa [List.dropWhile_cons, hx] using h)
    · have hx' : p x = false := by simpa using hx
      have : x = c := by simpa [List.dropWhile_cons, hx'] using congrArg List.head? h
      rwa [← this]

/-- A value that trims to the empty string fails the iteration parser. -/
theorem parseForExpression_of_trim_empty {v : String} (h : jsTrim v = "") :
    parseForExpression v = none := by
  have h2 : jsTrimL v.data = [] := congrArg String.data h
  unfold jsTrimL at h2
  have h3 : (v.data.dropWhile jsWs).reverse.dropWhile jsWs = [] := by
    simpa using congrArg List.reverse h2
  rw [List.dropWhile_eq_nil_iff] at h3
  have hnil : v.data.dropWhile jsWs = [] := by
    cases hd : v.data.dropWhile jsWs with
    | nil => rfl
    | cons c t =>
      have hc : jsWs c = true := h3 c (by simp [hd])
      have hc' : jsWs c = false := dropWhile_head_false hd
      rw [hc] at hc'
      cases hc'
  unfold parseForExpression
  rw [hnil]
  rfl

/-- C9: whenever the directive scan finds an iteration directive whose
quoted value trims to nothing, its contribution to the diagnostics is
exactly two findings — the invalid-iteration-syntax error and the
empty-value error — both of error severity, and both appear in the
document's directive diagnostics. -/
theorem C9_emptyFor_two_errors (text : String) (m : DirMatch)
    (hm : m ∈ directiveScan text) (hname : m.name = "zen:for")
    (hval : jsTrim m.value = "") :
    directiveMatchDiags m =
      [⟨.Error, m.index, m.index + m.len,
        "Invalid zen:for syntax. Expected: \"item in items\" or \"item, index in items\""⟩,
       ⟨.Error, m.index, m.index + m.len, m.name ++ " requires a value"⟩]
    ∧ (∀ d ∈ directiveMatchDiags m, d.severity = .Error)
    ∧ (∀ d ∈ directiveMatchDiags m, d ∈ collectDirectiveDiagnostics text) := by
  have hparse : parseForExpression m.value = none := parseForExpression_of_trim_empty hval
  have hdiags : directiveMatchDiags m =
      [⟨.Error, m.index, m.index + m.len,
        "Invalid zen:for syntax. Expected: \"item in items\" or \"item, index in items\""⟩,
       ⟨.Error, m.index, m.index + m.len, m.name ++ " requires a value"⟩] := by
    unfold directiveMatchDiags
    rw [hname, hparse, hval]
    simp [hname]
  refine ⟨hdiags, ?_, ?_⟩
  · intro d hd
    rw [hdiags] at hd
    simp only [List.mem_cons, List.not_mem_nil, or_false] at hd
    rcases hd with h | h <;> subst h <;> rfl
  · intro d hd
    unfold collectDirectiveDiagnostics
    exact List.mem_append_left _ (List.mem_flatMap.mpr ⟨m, hm, hd⟩)

/-- Witness for C9 at a concrete document. -/
theorem C9_emptyFor_two_errors_witness :
    directiveMatchDiags ⟨"zen:for", "", 5, 10⟩ =
      [⟨.Error, 5, 15,
        "Invalid zen:for syntax. Expected: \"item in items\" or \"item, index in items\""⟩,
       ⟨.Error, 5, 15, "zen:for requires a value"⟩] := by
  have h := C9_emptyFor_two_errors "<div zen:for=\"\">" ⟨"zen:for", "", 5, 10⟩
    (by decide) (by decide) (by decide)
  exact h.1.trans (by decide)

/-- Lookup after a JS `Map.set`. -/
theorem jsLookup_jsMapSet {α : Type} (m : List (String × α)) (k n : String) (v : α) :
    jsLookup (jsMapSet m k v) n = if n = k then some v else jsLookup m n := by
  induction m with
  | nil =>
    by_cases h : n = k
    · subst h; simp [jsMapSet, jsLookup]
    · have h2 : ¬k = n := fun hh => h hh.symm
      simp [jsMapSet, jsLookup, h, h2]
  | cons x t ih =>
    obtain ⟨k', v'⟩ := x
    by_cases hk : k' = k
    · subst hk
      by_cases h : n = k'
      · subst h; simp [jsMapSet, jsLookup]
      · have h2 : ¬k' = n := fun hh => h hh.symm
        simp [jsMapSet, jsLookup, h, h2]
    · simp only [jsMapSet, if_neg hk]
      by_cases h : k' = n
      · subst h
        rw [if_neg hk]
        simp [jsLookup]
      · have h2 : ¬k' = n := h
        by_cases hnk : n = k
        · subst hnk
          simp only [jsLookup] at ih ⊢
          simp [List.find?_cons_of_neg, h2, ih]
        · simp only [jsLookup] at ih ⊢
          simp [List.find?_cons_of_neg, h2, ih, hnk]

/-- `find?` over an append. -/
theorem find?_append_cases {α : Type} (p : α → Bool) :
    ∀ (l₁ l₂ : List α),
      (l₁ ++ l₂).find? p =
        (match l₁.find? p with
         | some a => some a
         | none => l₂.find? p) := by
  intro l₁ l₂
  induction l₁ with
  | nil => simp
  | cons x t ih =>
    by_cases hx : p x = true
    · simp [List.find?_cons_of_pos, hx]
    · simp only [List.cons_append, List.find?_cons_of_neg _ hx, ih,
        List.find?_cons_of_neg _ hx]

/-- Folding scan results into the map realises last-write-wins with the
initializer trimmed at insertion. -/
theorem foldl_set_lookup (l : List (String × String)) (m : List (String × String))
    (n : String) :
    jsLookup (l.foldl (fun acc p => jsMapSet acc p.1 (jsTrim p.2)) m) n =
      (match l.reverse.find? (·.1 = n) with
       | some p => some (jsTrim p.2)
       | none => jsLookup m n) := by
  induction l generalizing m with
  | nil => simp
  | cons x xs ih =>
    simp only [List.foldl_cons, List.reverse_cons]
    rw [ih, find?_append_cases]
    cases hf : xs.reverse.find? (fun p => decide (p.1 = n)) with
    | some p => rfl
    | none =>
      rw [jsLookup_jsMapSet]
      by_cases h : n = x.1
      · rw [if_pos h]
        have hx : List.find? (fun q => decide (q.1 = n)) [x] = some x :=
          List.find?_cons_of_pos _ (by simp [h.symm])
        rw [hx]
      · rw [if_neg h]
        have hx : List.find? (fun q => decide (q.1 = n)) [x] = none := by
          have h2 : ¬(fun q : String × String => decide (q.1 = n)) x = true := by
            simp
            exact fun hh => h hh.symm
          simp [List.find?_cons_of_neg _ h2]
          exact fun hh => h hh.symm
        rw [hx]

/-- A successful `findSome?` comes from some list element. -/
theorem findSome?_eq_some_ex {α β : Type} {f : α → Option β} :
    ∀ {l : List α} {b : β}, l.findSome? f = some b → ∃ a ∈ l, f a = some b := by
  intro l
  induction l with
  | nil => intro b h; cases h
  | cons x t ih =>
    intro b h
    rw [List.findSome?_cons] at h
    cases hx : f x with
    | some c =>
      rw [hx] at h
      exact ⟨x, List.mem_cons_self x t, hx.trans h⟩
    | none =>
      rw [hx] at h
      obtain ⟨a, ha, hfa⟩ := ih h
      exact ⟨a, List.mem_cons_of_mem x ha, hfa⟩

/-- Elements of a `takeWhile` satisfy the predicate. -/
theorem mem_takeWhile_pred {α : Type} {p : α → Bool} :
    ∀ {l : List α} {a : α}, a ∈ l.takeWhile p → p a = true := by
  intro l
  induction l with
  | nil => intro a h; cases h
  | cons x t ih =>
    intro a h
    by_cases hx : p x = true
    · rw [List.takeWhile_cons, if_pos hx] at h
      rcases List.mem_cons.mp h with rfl | h
      · exact hx
      · exact ih h
    · rw [List.takeWhile_cons, if_neg hx] at h
      cases h

/-- Every payload produced by the repeated scan comes from one successful
positional match. -/
theorem scanAll_mem {α : Type} (f : List Char → Option (α × Nat)) :
    ∀ (fuel i : Nat) (s : List Char) (j : Nat) (a : α),
      (j, a) ∈ scanAll f fuel i s → ∃ s' len, f s' = some (a, len) := by
  intro fuel
  induction fuel with
  | zero => intro i s j a h; cases h
  | succ fuel ih =>
    intro i s j a h
    cases s with
    | nil => cases h
    | cons c t =>
      rw [scanAll] at h
      cases hf : f (c :: t) with
      | some pl =>
        obtain ⟨pa, plen⟩ := pl
        rw [hf] at h
        rcases List.mem_cons.mp h with he | hmem
        · have ha : a = pa := congrArg Prod.snd he
          subst ha
          exact ⟨c :: t, plen, hf⟩
        · exact ih _ _ _ _ hmem
      | none =>
        rw [hf] at h
        exact ih _ _ _ _ h


/-- A state-scan initializer is a run of characters other than `;` and
newline. -/
theorem stateHere_init_chars {cs : List Char} {n init : String} {len : Nat}
    (h : stateHere cs = some ((n, init), len)) :
    ∀ c ∈ init.data, c ≠ ';' ∧ c ≠ '\n' := by
  unfold stateHere at h
  split at h
  · cases h
  · dsimp only at h
    split at h
    · cases h
    · split at h
      · cases h
      · split at h
        · split at h
          · case _ a init1 heq4 =>
            have hinj := Option.some.inj h
            have hstr : (⟨init1⟩ : String) = init :=
              congrArg (fun q : (String × String) × Nat => q.1.2) hinj
            have hinit : init.data = init1 := (congrArg String.data hstr).symm ▸ rfl
            obtain ⟨a', _, hfa⟩ := findSome?_eq_some_ex heq4
            have hfa' : (match List.takeWhile (fun c => c ≠ ';' && c ≠ '\n')
                  (List.drop a' _) with
                | [] => none
                | init => some (a', init)) = some (a, init1) := hfa
            cases hq : List.takeWhile (fun c => decide (c ≠ ';') && decide (c ≠ '\n'))
                (List.drop a' _) with
            | nil =>
              rw [hq] at hfa'
              cases hfa'
            | cons q0 qt =>
              rw [hq] at hfa'
              have hil : init1 = q0 :: qt :=
                (congrArg Prod.snd (Option.some.inj hfa')).symm
              intro c hc
              rw [hinit, hil, ← hq] at hc
              have hpc := mem_takeWhile_pred hc
              simp only [Bool.and_eq_true, decide_eq_true_eq] at hpc
              exact hpc
          · cases h
        · cases h

/-- Every raw initializer in the state scan is free of `;` and newline. -/
theorem stateScan_no_terminator (script : String) :
    ∀ p ∈ stateScan script, ∀ c ∈ p.2.data, c ≠ ';' ∧ c ≠ '\n' := by
  intro p hp
  unfold stateScan at hp
  obtain ⟨⟨j, q⟩, hmem, hq⟩ := List.mem_map.mp hp
  obtain ⟨s', len, hf⟩ := scanAll_mem stateHere _ _ _ _ _ hmem
  obtain ⟨n, i⟩ := q
  cases hq
  exact stateHere_init_chars hf

/-- C5 (counterexample): in `"state a = state b = 2"` the inner text
`state b = 2` is itself a state declaration matching the declared-state
pattern, but because the first match's initializer swallows it (the
initializer runs to the end of the line), `extractStates` does not map
`b` at all — it maps `a` to the raw text `state b = 2` instead. -/
theorem C5_nested_declaration_lost :
    stateHere (("state a = state b = 2").data.drop 10) = some (("b", "2"), 11)
    ∧ jsLookup (extractStates "state a = state b = 2") "b" = none
    ∧ jsLookup (extractStates "state a = state b = 2") "a" = some "state b = 2" := by
  refine ⟨?_, ?_, ?_⟩ <;> decide

/-- C5 (amended): `extractStates` realises the left-to-right
non-overlapping scan: for every identifier the scan finds, the map holds
the trimmed initializer of the last scan entry for that identifier, and
every scanned raw initializer stops before any `;` or newline. -/
theorem C5_extractStates_lastWins (script n : String) (p : String × String)
    (hp : (stateScan script).reverse.find? (·.1 = n) = some p) :
    jsLookup (extractStates script) n = some (jsTrim p.2)
    ∧ (∀ q ∈ stateScan script, ∀ c ∈ q.2.data, c ≠ ';' ∧ c ≠ '\n') := by
  constructor
  · unfold extractStates
    rw [foldl_set_lookup, hp]
  · exact stateScan_no_terminator script

/-- Witness for the amended C5 on a duplicate declaration. -/
theorem C5_extractStates_lastWins_witness :
    jsLookup (extractStates "state x = 1; state x = 2") "x" = some "2" := by
  have h := C5_extractStates_lastWins "state x = 1; state x = 2" "x" ("x", "2")
    (by decide)
  exact h.1.trans (by decide)

/-- Each record of the line loop keeps the one-based number of the line
that produced it, and that line's contribution is the record's content. -/
theorem goImports_mem :
    ∀ (l : List String) (i : Nat) (imp : ParsedImport),
      imp ∈ goImports i l →
      i + 1 ≤ imp.line ∧
        (l.get? (imp.line - 1 - i)).bind lineImport =
          some (imp.module, imp.specifiers, imp.isType) := by
  intro l
  induction l with
  | nil => intro i imp h; cases h
  | cons line rest ih =>
    intro i imp h
    rw [goImports] at h
    cases hli : lineImport line with
    | some r =>
      obtain ⟨m, s, t⟩ := r
      rw [hli] at h
      rcases List.mem_cons.mp h with he | hmem
      · subst he
        refine ⟨Nat.le_refl _, ?_⟩
        have hidx : i + 1 - 1 - i = 0 := by omega
        rw [hidx]
        simpa using hli
      · obtain ⟨hle, hget⟩ := ih (i + 1) imp hmem
        refine ⟨by omega, ?_⟩
        have hidx : imp.line - 1 - i = (imp.line - 1 - (i + 1)) + 1 := by omega
        rw [hidx]
        simpa using hget
    | none =>
      rw [hli] at h
      obtain ⟨hle, hget⟩ := ih (i + 1) imp h
      refine ⟨by omega, ?_⟩
      have hidx : imp.line - 1 - i = (imp.line - 1 - (i + 1)) + 1 := by omega
      rw [hidx]
      simpa using hget

/-- Line numbers in the loop output are strictly increasing. -/
theorem goImports_pairwise :
    ∀ (l : List String) (i : Nat),
      List.Pairwise (fun a b => a.line < b.line) (goImports i l) := by
  intro l
  induction l with
  | nil => intro i; rw [goImports]; exact List.Pairwise.nil
  | cons line rest ih =>
    intro i
    rw [goImports]
    cases hli : lineImport line with
    | some r =>
      obtain ⟨m, s, t⟩ := r
      refine List.pairwise_cons.mpr ⟨?_, ih (i + 1)⟩
      intro b hb
      have := (goImports_mem rest (i + 1) b hb).1
      simpa using by omega
    | none => exact ih (i + 1)

/-- C10: `parseZenithImports` yields at most one record per script line —
the recorded line numbers are strictly increasing and each record's line
number is the one-based index of the line whose own contribution it is —
and a line's contribution comes from the side-effect pattern only when
the from-style import pattern does not match that line. -/
theorem C10_parseZenithImports_perLine (script : String) :
    List.Pairwise (fun a b => a.line < b.line) (parseZenithImports script)
    ∧ (∀ imp ∈ parseZenithImports script,
        1 ≤ imp.line ∧
          ((scriptLines script).get? (imp.line - 1)).bind lineImport =
            some (imp.module, imp.specifiers, imp.isType))
    ∧ (∀ (line : String) (m : RawImport), matchImportLine line = some m →
        lineImport line =
          if zenithRetained m.module then
            some (m.module, clauseSpecifiers m.clause, m.isType)
          else none) := by
  refine ⟨goImports_pairwise _ 0, ?_, ?_⟩
  · intro imp h
    have := goImports_mem (scriptLines script) 0 imp h
    simpa using this
  · intro line m hm
    simp [lineImport, hm]

/-- Witness for C10 on a concrete side-effect import script. -/
theorem C10_parseZenithImports_perLine_witness :
    1 ≤ (1 : Nat) ∧
      ((scriptLines "import \x27zenith:x\x27").get? 0).bind lineImport =
        some ("zenith:x", [], false) := by
  have h := (C10_parseZenithImports_perLine "import \x27zenith:x\x27").2.1
    ⟨"zenith:x", [], false, 1⟩ (by decide)
  exact h

/-- C1 (amended): every finding the import validator produces about a
plugin-namespace import has information or warning severity — never
error severity.  (The unknown-plugin note is informational; a registered
plugin with a name outside its declared exports draws a warning.) -/
theorem C1_pluginImportDiag_soft (sc : String) (scStart : Nat) (imp : ParsedImport)
    (_hplug : isPluginModule imp.module = true) (d : Diagnostic)
    (hd : d ∈ importDiags sc scStart imp) :
    d.severity = Severity.Information ∨ d.severity = Severity.Warning := by
  unfold importDiags at hd
  rcases List.mem_append.mp hd with h | h
  · split at h
    · split at h
      · left
        have := List.mem_singleton.mp h
        rw [this]
      · cases h
    · cases h
  · split at h
    · split at h
      · obtain ⟨spec, _, hsp⟩ := List.mem_flatMap.mp h
        split at hsp
        · split at hsp
          · right
            have := List.mem_singleton.mp hsp
            rw [this]
          · cases hsp
        · cases hsp
      · cases h
    · cases h

/-- C1 (counterexample): a registered plugin import with a bad specifier
draws a warning-severity finding about that plugin import, so not every
finding about a plugin import is informational. -/
theorem C1_pluginImportDiag_counterexample :
    parseZenithImports "import \x7b nope \x7d from \x27zenith:content\x27" =
      [⟨"zenith:content", ["nope"], false, 1⟩]
    ∧ isPluginModule "zenith:content" = true
    ∧ (collectImportDiagnostics
        "<script>import \x7b nope \x7d from \x27zenith:content\x27</script>").map
          (·.severity) = [Severity.Warning]
    ∧ (collectImportDiagnostics
        "<script>import \x7b nope \x7d from \x27zenith:content\x27</script>").map
          (·.message) = ["\x27nope\x27 is not exported from \x27zenith:content\x27"]
    ∧ Severity.Warning ≠ Severity.Information := by
  refine ⟨?_, ?_, ?_, ?_, ?_⟩ <;> decide

/-- Witness for the amended C1 at the same concrete import. -/
theorem C1_pluginImportDiag_soft_witness :
    (⟨Severity.Warning, 17, 21,
      "\x27nope\x27 is not exported from \x27zenith:content\x27"⟩ : Diagnostic).severity
        = Severity.Information
    ∨ (⟨Severity.Warning, 17, 21,
        "\x27nope\x27 is not exported from \x27zenith:content\x27"⟩ : Diagnostic).severity
          = Severity.Warning := by
  exact C1_pluginImportDiag_soft "import \x7b nope \x7d from \x27zenith:content\x27" 8
    ⟨"zenith:content", ["nope"], false, 1⟩ (by decide) _ (by decide)

/-- Lookup after a JS `Map.delete`. -/
theorem jsLookup_jsMapDelete {α : Type} (m : List (String × α)) (k n : String) :
    jsLookup (jsMapDelete m k) n = if n = k then none else jsLookup m n := by
  simp only [jsMapDelete]
  induction m with
  | nil => by_cases h : n = k <;> simp [jsLookup, h]
  | cons x t ih =>
    obtain ⟨k', v'⟩ := x
    by_cases hk : k' = k
    · have hstep : List.filter (fun p => p.1 ≠ k) ((k', v') :: t) =
          List.filter (fun p => p.1 ≠ k) t := by
        simp [List.filter_cons, hk]
      rw [hstep, ih]
      by_cases hn : n = k
      · rw [if_pos hn, if_pos hn]
      · rw [if_neg hn, if_neg hn]
        have hk'n : ¬k' = n := fun hh => hn (hh.symm.trans hk)
        simp [jsLookup, hk'n]
    · have hstep : List.filter (fun p => p.1 ≠ k) ((k', v') :: t) =
          (k', v') :: List.filter (fun p => p.1 ≠ k) t := by
        simp [List.filter_cons, hk]
      rw [hstep]
      by_cases hn : n = k
      · rw [if_pos hn]
        rw [if_pos hn] at ih
        have hk'n : ¬k' = n := fun hh => hk (hh.trans hn)
        simpa [jsLookup, hk'n] using ih
      · rw [if_neg hn]
        rw [if_neg hn] at ih
        by_cases hh : k' = n
        · subst hh
          simp [jsLookup]
        · have hpk' : ¬(fun x : String × α => decide (x.1 = n)) (k', v') = true := by
            simp [hh]
          simp only [jsLookup]
          rw [List.find?_cons_of_neg (p := fun x : String × α => decide (x.1 = n)) _ hpk',
            List.find?_cons_of_neg (p := fun x : String × α => decide (x.1 = n)) _ hpk']
          simp only [jsLookup] at ih
          exact ih

/-- C8: invalidating the cache for a changed URI removes exactly the
entry keyed by that URI's own detected project root; the entry of any
other root — in particular the current document's — is untouched. -/
theorem C8_invalidate_only_own_root (detect : String → Option String)
    (graphs : List (String × ProjectGraph)) (uri : String) (root other : String)
    (hdet : detect (stripFileScheme uri) = some root)
    (hother : other ≠ root) :
    jsLookup (invalidateProjectGraph detect graphs uri) other = jsLookup graphs other
    ∧ jsLookup (invalidateProjectGraph detect graphs uri) root = none := by
  unfold invalidateProjectGraph
  rw [hdet]
  constructor
  · rw [jsLookup_jsMapDelete, if_neg hother]
  · rw [jsLookup_jsMapDelete, if_pos rfl]

/-- Witness for C8 on a two-entry cache. -/
theorem C8_invalidate_only_own_root_witness :
    jsLookup
        (invalidateProjectGraph
          (fun p => if p = "/proj/b/file.zen" then some "/proj/b" else none)
          [("/proj/a", ⟨"/proj/a", [], [], []⟩), ("/proj/b", ⟨"/proj/b", [], [], []⟩)]
          "file:///proj/b/file.zen")
        "/proj/a"
      = jsLookup
          [("/proj/a", (⟨"/proj/a", [], [], []⟩ : ProjectGraph)),
           ("/proj/b", ⟨"/proj/b", [], [], []⟩)] "/proj/a"
    ∧ jsLookup
        (invalidateProjectGraph
          (fun p => if p = "/proj/b/file.zen" then some "/proj/b" else none)
          [("/proj/a", ⟨"/proj/a", [], [], []⟩), ("/proj/b", ⟨"/proj/b", [], [], []⟩)]
          "file:///proj/b/file.zen")
        "/proj/b" = none := by
  exact C8_invalidate_only_own_root _ _ _ "/proj/b" "/proj/a" (by decide) (by decide)

/-- `filterMap` with a total function is `map`. -/
theorem filterMap_some_map {α β : Type} (f : α → β) (l : List α) :
    l.filterMap (fun x => some (f x)) = l.map f := by
  induction l with
  | nil => rfl
  | cons x t ih => simp [List.filterMap_cons, ih]

/-- C4 (counterexample): with the cursor inside a template expression and
the non-empty partial identifier `x`, the state variable `count` is still
offered although it does not pass the case-insensitive starts-with test
— the expression-context tiers are unfiltered. -/
theorem C4_expression_tier_unfiltered :
    (getPositionContext "<script>state count = 1</script><p>\x7bx" 37).inExpression = true
    ∧ (getPositionContext "<script>state count = 1</script><p>\x7bx" 37).currentWord = "x"
    ∧ "count" ∈ (onCompletionScriptExpr "<script>state count = 1</script><p>\x7bx" 37).map
        (·.label)
    ∧ jsLowerStarts "count" "x" = false := by
  refine ⟨?_, ?_, ?_, ?_⟩ <;> decide

/-- C4 (amended): with a non-empty partial identifier every script-context
tier except the import-path module tier is filtered by the
case-insensitive starts-with test; with an empty partial identifier the
script-context tiers are returned whole; and the expression-context tiers
(state variables, functions, loop variables, route fields) are returned
whole regardless of the partial identifier. -/
theorem C4_completion_filter (cw lineBefore : String)
    (states : List (String × String)) (functions : List FuncInfo)
    (loopVars : List String) (routerEnabled : Bool)
    (text : String) (offset : Nat) :
    (cw ≠ "" →
      ∀ item ∈ scriptCompletions cw lineBefore states functions routerEnabled,
        item.kind = CompletionItemKind.Module ∨ jsLowerStarts item.label cw = true)
    ∧ ((scriptCompletions "" lineBefore states functions routerEnabled).map (·.label) =
        LIFECYCLE_HOOKS.map (·.name)
        ++ (if routerEnabled then ROUTER_HOOKS.map (·.2.name) else [])
        ++ functions.map (·.name) ++ states.map (·.1)
        ++ (if importPathTail "from".data lineBefore.data ||
              importPathTail "import".data lineBefore.data then
              getAllModules.map (·.1)
            else []))
    ∧ ((exprCompletions states functions loopVars routerEnabled).map (·.label) =
        states.map (·.1) ++ functions.map (·.name) ++ loopVars ++
          (if routerEnabled then ROUTE_FIELDS.map ("route." ++ ·.name) else []))
    ∧ ((getPositionContext text offset).inExpression = true →
        ∀ p ∈ extractStates (getScriptContent text),
          p.1 ∈ (onCompletionScriptExpr text offset).map (·.label)) := by
  refine ⟨?_, ?_, ?_, ?_⟩
  · intro hcw item hitem
    have hcw' : decide (cw = "") = false := by
      simpa using hcw
    unfold scriptCompletions at hitem
    rcases List.mem_append.mp hitem with h | h
    · rcases List.mem_append.mp h with h | h
      · rcases List.mem_append.mp h with h | h
        · rcases List.mem_append.mp h with h | h
          · obtain ⟨hook, _, hsome⟩ := List.mem_filterMap.mp h
            rw [hcw'] at hsome
            simp only [Bool.false_or] at hsome
            split at hsome
            · right
              cases Option.some.inj hsome
              assumption
            · cases hsome
          · split at h
            · obtain ⟨p, _, hsome⟩ := List.mem_filterMap.mp h
              rw [hcw'] at hsome
              simp only [Bool.false_or] at hsome
              split at hsome
              · right
                cases Option.some.inj hsome
                assumption
              · cases hsome
            · cases h
        · obtain ⟨f, _, hsome⟩ := List.mem_filterMap.mp h
          rw [hcw'] at hsome
          simp only [Bool.false_or] at hsome
          split at hsome
          · right
            cases Option.some.inj hsome
            assumption
          · cases hsome
      · obtain ⟨p, _, hsome⟩ := List.mem_filterMap.mp h
        rw [hcw'] at hsome
        simp only [Bool.false_or] at hsome
        split at hsome
        · right
          cases Option.some.inj hsome
          assumption
        · cases hsome
    · split at h
      · obtain ⟨m, _, hm⟩ := List.mem_map.mp h
        left
        rw [← hm]
      · cases h
  · unfold scriptCompletions
    cases routerEnabled <;>
      cases himp : (importPathTail "from".data lineBefore.data ||
          importPathTail "import".data lineBefore.data) <;>
        simp [himp, filterMap_some_map, List.map_map, Function.comp_def]
  · unfold exprCompletions
    cases routerEnabled <;> simp [List.map_map, Function.comp_def]
  · intro hexp p hp
    unfold onCompletionScriptExpr
    simp only [hexp, if_true]
    rw [List.map_append]
    refine List.mem_append_right _ ?_
    unfold exprCompletions
    simp only [List.map_append, List.map_map]
    refine List.mem_append_left _ (List.mem_append_left _ ?_)
    refine List.mem_append_left _ ?_
    exact List.mem_map.mpr ⟨p, hp, rfl⟩

/-- Witness for the amended C4 at a concrete filtered tier. -/
theorem C4_completion_filter_witness :
    (⟨"zenOnMount", CompletionItemKind.Function, some "Zenith Lifecycle",
        some "0_zenOnMount"⟩ : CompletionItem).kind = CompletionItemKind.Module
    ∨ jsLowerStarts "zenOnMount" "ze" = true := by
  exact (C4_completion_filter "ze" "" [] [] [] false "" 0).1 (by decide) _ (by decide)

/-- `any` is `find?`-success. -/
theorem any_eq_find?_isSome {α : Type} (p : α → Bool) (l : List α) :
    l.any p = (l.find? p).isSome := by
  induction l with
  | nil => rfl
  | cons x t ih =>
    by_cases hx : p x = true
    · simp [List.any_cons, hx, List.find?_cons_of_pos _ hx]
    · have hx' : p x = false := by simpa using hx
      simp [List.any_cons, hx', List.find?_cons_of_neg _ hx, ih]

/-- The membership test of the directive table agrees with its lookup. -/
theorem isDirective_isSome (w : String) : isDirective w = (getDirective w).isSome := by
  unfold isDirective getDirective jsLookup
  rw [any_eq_find?_isSome]
  cases DIRECTIVES.find? (·.1 = w) <;> rfl

/-- The membership test of the router-hook table agrees with its lookup. -/
theorem isRouterHook_isSome (w : String) : isRouterHook w = (getRouterHook w).isSome := by
  unfold isRouterHook getRouterHook jsLookup
  rw [any_eq_find?_isSome]
  cases ROUTER_HOOKS.find? (·.1 = w) <;> rfl

/-- C7: the hover handler observes the spec's fixed precedence order —
directive vocabulary, router hooks, lifecycle hooks, the navigation-link
component (only with the router imported), declared state, declared
functions, imported symbols, project-graph components, markup vocabulary
— with first match wins and no hover for an empty word. -/
theorem C7_hover_precedence (text : String) (offset : Nat)
    (graph : Option ProjectGraph) :
    onHoverModel text offset graph = hoverOrdered text offset graph := by
  unfold onHoverModel hoverOrdered
  by_cases hw : hoverWordAt text offset = ""
  · simp [hw]
  · rw [if_neg hw, if_neg hw]
    unfold hoverDirective hoverRouterHook hoverLifecycle hoverZenLink hoverState
      hoverFunc hoverImported hoverComponent hoverHtml
    cases hgd : getDirective (hoverWordAt text offset) with
    | some d =>
      have hid : isDirective (hoverWordAt text offset) = true := by
        rw [isDirective_isSome, hgd]; rfl
      simp [hid, hgd, firstSome]
    | none =>
      have hid : isDirective (hoverWordAt text offset) = false := by
        rw [isDirective_isSome, hgd]; rfl
      simp only [hid, Bool.false_eq_true, if_false, hgd, Option.map_none', firstSome]
      cases hrh : getRouterHook (hoverWordAt text offset) with
      | some h =>
        have hir : isRouterHook (hoverWordAt text offset) = true := by
          rw [isRouterHook_isSome, hrh]; rfl
        simp [hir, hrh, firstSome]
      | none =>
        have hir : isRouterHook (hoverWordAt text offset) = false := by
          rw [isRouterHook_isSome, hrh]; rfl
        simp only [hir, Bool.false_eq_true, if_false, hrh, Option.map_none', firstSome]
        cases hlf : LIFECYCLE_HOOKS.find? (·.name = hoverWordAt text offset) with
        | some h => simp [hlf, firstSome]
        | none =>
          simp only [hlf, Option.map_none', firstSome]
          cases hz : (decide (hoverWordAt text offset = "ZenLink") &&
              hasRouterImport (parseZenithImports (getScriptContent text))) with
          | true => simp [hz, firstSome]
          | false =>
            simp only [hz, Bool.false_eq_true, if_false, firstSome]
            cases hst : jsLookup (extractStates (getScriptContent text))
                (hoverWordAt text offset) with
            | some v => simp [hst, firstSome]
            | none =>
              simp only [hst, Option.map_none', firstSome]
              cases hfn : (extractFunctions (getScriptContent text)).find?
                  (·.name = hoverWordAt text offset) with
              | some f => simp [hfn, firstSome]
              | none =>
                simp only [hfn, Option.map_none', firstSome]
                cases him : (parseZenithImports (getScriptContent text)).findSome?
                    (fun imp =>
                      if imp.specifiers.contains (hoverWordAt text offset) then
                        (resolveExport imp.module (hoverWordAt text offset)).map
                          (importedHoverMd (hoverWordAt text offset) imp.module)
                      else none) with
                | some h => simp [him, firstSome]
                | none =>
                  simp only [him, firstSome]
                  cases graph with
                  | none =>
                    simp only [Option.none_bind, firstSome]
                    cases hht : HTML_ELEMENTS.find? (·.tag = hoverWordAt text offset) with
                    | some el => simp [hht, firstSome]
                    | none => simp [hht, firstSome]
                  | some g =>
                    cases hcp : resolveComponent g (hoverWordAt text offset) with
                    | some comp => simp [hcp, firstSome]
                    | none =>
                      simp only [hcp, Option.map_none', Option.some_bind, firstSome]
                      cases hht : HTML_ELEMENTS.find? (·.tag = hoverWordAt text offset) with
                      | some el => simp [hht, firstSome]
                      | none => simp [hht, firstSome]

/-- A case-insensitive prefix is no longer than its host. -/
theorem ciStarts_le_length :
    ∀ {p s : List Char}, ciStarts p s = true → p.length ≤ s.length := by
  intro p
  induction p with
  | nil => intro s _; simp
  | cons p0 pr ih =>
    intro s h
    cases s with
    | nil => cases h
    | cons c cs =>
      have := ih (Bool.and_elim_right (by simpa [ciStarts] using h))
      simpa using Nat.succ_le_succ this

/-- A case-insensitive prefix of the pattern against its own text. -/
theorem ciStarts_self_append (p r : List Char) : ciStarts p (p ++ r) = true := by
  induction p with
  | nil => rfl
  | cons p0 pr ih => simp [ciStarts, lcEq, ih]

/-- For a long enough left part, the prefix test ignores the right part. -/
theorem ciStarts_append_left :
    ∀ {p a : List Char} (b : List Char), p.length ≤ a.length →
      ciStarts p (a ++ b) = ciStarts p a := by
  intro p
  induction p with
  | nil => intro a b _; rfl
  | cons p0 pr ih =>
    intro a b h
    cases a with
    | nil => simp at h
    | cons c cs =>
      simp only [List.cons_append, ciStarts]
      congr 1
      exact ih b (by simpa using h)

/-- Matched positions agree character by character. -/
theorem ciStarts_get :
    ∀ (p s : List Char) (j : Nat) (c c' : Char),
      ciStarts p s = true → p.get? j = some c → s.get? j = some c' →
      lcEq c c' = true := by
  intro p
  induction p with
  | nil => intro s j c c' _ hc _; cases j <;> cases hc
  | cons p0 pr ih =>
    intro s j c c' h hc hc'
    cases s with
    | nil => cases h
    | cons s0 ss =>
      have hand := (by simpa [ciStarts] using h : lcEq p0 s0 = true ∧ ciStarts pr ss = true)
      cases j with
      | zero =>
        cases hc; cases hc'
        exact hand.1
      | succ j => exact ih ss j c c' hand.2 hc hc'

/-- Unpacking `occFree`. -/
theorem occFree_spec {pat s : List Char} (h : occFree pat s = true) :
    ∀ i < s.length, ciStarts pat (s.drop i) = false := by
  intro i hi
  have := List.all_eq_true.mp h i (List.mem_range.mpr hi)
  simpa using this

/-- Glueing two occurrence-free zones. -/
theorem noStart_glue {pat s : List Char} {n₁ n₂ : Nat}
    (h₁ : ∀ i < n₁, ciStarts pat (s.drop i) = false)
    (h₂ : ∀ i < n₂, ciStarts pat ((s.drop n₁).drop i) = false) :
    ∀ i < n₁ + n₂, ciStarts pat (s.drop i) = false := by
  intro i hi
  by_cases hcase : i < n₁
  · exact h₁ i hcase
  · have h3 := h₂ (i - n₁) (by omega)
    rwa [List.drop_drop, Nat.add_comm, Nat.sub_add_cancel (by omega)] at h3

/-- No marker occurrence can begin inside occurrence-free plain text when
the following text starts with `<` (or is empty): the continuation
characters of a marker never include `<`. -/
theorem noStart_plain (pat q z : List Char)
    (htail : noLtTail pat = true)
    (hfree : occFree pat q = true)
    (hz : z = [] ∨ z.head? = some '<') :
    ∀ i < q.length, ciStarts pat ((q ++ z).drop i) = false := by
  intro i hi
  rw [List.drop_append_of_le_length (Nat.le_of_lt hi)]
  by_cases hlen : pat.length ≤ (q.drop i).length
  · rw [ciStarts_append_left z hlen]
    exact occFree_spec hfree i hi
  · cases hcs : ciStarts pat (q.drop i ++ z) with
    | false => rfl
    | true =>
      exfalso
      have hd : 0 < (q.drop i).length := by
        simp only [List.length_drop]
        omega
      rcases hz with rfl | hz
      · rw [List.append_nil] at hcs
        exact hlen (ciStarts_le_length hcs)
      · have hplen : (q.drop i).length < pat.length := by omega
        cases hg : pat.get? (q.drop i).length with
        | none =>
          rw [List.get?_eq_none] at hg
          omega
        | some c =>
          have hs : (q.drop i ++ z).get? (q.drop i).length = some '<' := by
            rw [List.get?_append_right (Nat.le_refl _), Nat.sub_self]
            cases z with
            | nil => cases hz
            | cons z0 zt =>
              have : z0 = '<' := by simpa using hz
              simp [this]
          have hlceq := ciStarts_get pat _ _ _ _ hcs hg hs
          have hmem : c ∈ pat.drop 1 := by
            apply List.get?_mem (n := (q.drop i).length - 1)
            rw [List.get?_drop]
            rwa [show 1 + ((q.drop i).length - 1) = (q.drop i).length by omega]
          have := List.all_eq_true.mp htail c hmem
          simp only [Bool.not_eq_true'] at this
          rw [this] at hlceq
          cases hlceq

/-- No marker occurrence can begin inside an occurrence-free zone that
ends with `>` when the marker can carry `>` only as its final character
(so an occurrence reaching past the zone would have to put `>` in its
interior). -/
theorem noStart_upToGt (pat q z : List Char)
    (hgt : gtOnlyLast pat = true)
    (hlast : q.get? (q.length - 1) = some '>')
    (hfree : occFree pat q = true) :
    ∀ i < q.length, ciStarts pat ((q ++ z).drop i) = false := by
  intro i hi
  rw [List.drop_append_of_le_length (Nat.le_of_lt hi)]
  by_cases hlen : pat.length ≤ (q.drop i).length
  · rw [ciStarts_append_left z hlen]
    exact occFree_spec hfree i hi
  · cases hcs : ciStarts pat (q.drop i ++ z) with
    | false => rfl
    | true =>
      exfalso
      have hd : 0 < (q.drop i).length := by
        simp only [List.length_drop]
        omega
      have hplen : (q.drop i).length < pat.length := by omega
      have hjlt : (q.drop i).length - 1 < pat.length := by omega
      cases hg : pat.get? ((q.drop i).length - 1) with
      | none =>
        rw [List.get?_eq_none] at hg
        omega
      | some c =>
        have hsq : (q.drop i).get? ((q.drop i).length - 1) = some '>' := by
          rw [List.get?_drop]
          have : i + ((q.drop i).length - 1) = q.length - 1 := by
            simp only [List.length_drop] at hd ⊢
            omega
          rw [this]
          exact hlast
        have hs : (q.drop i ++ z).get? ((q.drop i).length - 1) = some '>' := by
          rw [List.get?_append (by omega)]
          exact hsq
        have hlceq := ciStarts_get pat _ _ _ _ hcs hg hs
        have hj := List.all_eq_true.mp hgt ((q.drop i).length - 1)
          (List.mem_range.mpr hjlt)
        rw [hg] at hj
        simp only [hlceq, Bool.not_true, Bool.false_or, decide_eq_true_eq] at hj
        simp only [List.length_drop] at hd hplen hj
        omega

/-- No marker occurrence can begin inside a literal with an internal
mismatch table. -/
theorem noStart_lit (pat lit : List Char) (hm : mismatchInside pat lit = true) :
    ∀ i < lit.length, ∀ z, ciStarts pat ((lit ++ z).drop i) = false := by
  intro i hi z
  have hall := List.all_eq_true.mp hm i (List.mem_range.mpr hi)
  obtain ⟨j, hjmem, hj⟩ := List.any_eq_true.mp hall
  have hjlt : j < lit.length - i := List.mem_range.mp hjmem
  cases hgp : pat.get? j with
  | none => rw [hgp] at hj; cases hj
  | some c =>
    cases hgl : lit.get? (i + j) with
    | none => rw [hgp, hgl] at hj; cases hj
    | some c' =>
      rw [hgp, hgl] at hj
      have hne : lcEq c c' = false := by simpa using hj
      rw [List.drop_append_of_le_length (Nat.le_of_lt hi)]
      cases hcs : ciStarts pat (lit.drop i ++ z) with
      | false => rfl
      | true =>
        exfalso
        have hs : (lit.drop i ++ z).get? j = some c' := by
          rw [List.get?_append (by simp only [List.length_drop]; omega)]
          rw [List.get?_drop]
          exact hgl
        have := ciStarts_get pat _ _ _ _ hcs hgp hs
        rw [hne] at this
        cases this

/-- Stepping over `skip` characters is scanning the dropped list. -/
theorem countLitGo_drop (pat : List Char) :
    ∀ (s : List Char) (skip : Nat), countLitGo pat s skip = countLit pat (s.drop skip) := by
  intro s
  induction s with
  | nil => intro skip; cases skip <;> rfl
  | cons c t ih =>
    intro skip
    cases skip with
    | zero => rfl
    | succ k => simpa [countLitGo] using ih k

/-- A failed position advances the literal scan one character. -/
theorem countLit_cons_neg {pat : List Char} {c : Char} {t : List Char}
    (h : ciStarts pat (c :: t) = false) :
    countLit pat (c :: t) = countLit pat t := by
  simp [countLit, countLitGo, h]

/-- A hit counts once and resumes after the literal. -/
theorem countLit_hit {p0 : Char} {pr : List Char} (r : List Char) :
    countLit (p0 :: pr) ((p0 :: pr) ++ r) = 1 + countLit (p0 :: pr) r := by
  have hs : ciStarts (p0 :: pr) (p0 :: (pr ++ r)) = true := by
    simpa using ciStarts_self_append (p0 :: pr) r
  simp only [countLit, List.cons_append, List.append_eq, countLitGo]
  rw [if_pos hs, countLitGo_drop, countLitGo_drop]
  simp

/-- An occurrence-free zone does not change the literal count. -/
theorem countLit_skip {pat : List Char} :
    ∀ (n : Nat) (s : List Char),
      (∀ i < n, ciStarts pat (s.drop i) = false) →
      countLit pat s = countLit pat (s.drop n) := by
  intro n
  induction n with
  | zero => intro s _; rfl
  | succ n ih =>
    intro s h
    cases s with
    | nil => simp
    | cons c t =>
      have h0 : ciStarts pat (c :: t) = false := by simpa using h 0 (by omega)
      rw [countLit_cons_neg h0]
      have := ih t (fun i hi => by simpa using h (i + 1) (by omega))
      simpa using this

/-- Stepping over `skip` characters is scanning the dropped list. -/
theorem countTagGo_drop (pat : List Char) :
    ∀ (s : List Char) (skip : Nat), countTagGo pat s skip = countTag pat (s.drop skip) := by
  intro s
  induction s with
  | nil => intro skip; cases skip <;> rfl
  | cons c t ih =>
    intro skip
    cases skip with
    | zero => rfl
    | succ k => simpa [countTagGo] using ih k

/-- A failed position advances the tag scan one character. -/
theorem countTag_cons_neg {pat : List Char} {c : Char} {t : List Char}
    (h : ciStarts pat (c :: t) = false) :
    countTag pat (c :: t) = countTag pat t := by
  simp [countTag, countTagGo, h]

/-- An occurrence-free zone does not change the tag count. -/
theorem countTag_skip {pat : List Char} :
    ∀ (n : Nat) (s : List Char),
      (∀ i < n, ciStarts pat (s.drop i) = false) →
      countTag pat s = countTag pat (s.drop n) := by
  intro n
  induction n with
  | zero => intro s _; rfl
  | succ n ih =>
    intro s h
    cases s with
    | nil => simp
    | cons c t =>
      have h0 : ciStarts pat (c :: t) = false := by simpa using h 0 (by omega)
      rw [countTag_cons_neg h0]
      have := ih t (fun i hi => by simpa using h (i + 1) (by omega))
      simpa using this

/-- `takeWhile` crossing a `>`-free prefix stops exactly at the `>`. -/
theorem takeWhile_append_gt (a r : List Char) (h : ∀ x ∈ a, x ≠ '>') :
    (a ++ '>' :: r).takeWhile (· ≠ '>') = a := by
  induction a with
  | nil => simp [List.takeWhile_cons]
  | cons x t ih =>
    have hx : x ≠ '>' := h x (List.mem_cons_self x t)
    have ht := ih fun y hy => h y (List.mem_cons_of_mem x hy)
    simp [List.takeWhile_cons, hx]
    simpa using ht

/-- An open-tag hit: the scan counts once and resumes right after the
tag's own `>`. -/
theorem countTag_hit {p0 : Char} {pr : List Char} (a r : List Char)
    (ha : ∀ x ∈ a, x ≠ '>') :
    countTag (p0 :: pr) ((p0 :: pr) ++ (a ++ '>' :: r)) = 1 + countTag (p0 :: pr) r := by
  have hs : ciStarts (p0 :: pr) (p0 :: (pr ++ (a ++ '>' :: r))) = true := by
    simpa using ciStarts_self_append (p0 :: pr) (a ++ '>' :: r)
  have hdrop : (p0 :: (pr ++ (a ++ '>' :: r))).drop (p0 :: pr).length = a ++ '>' :: r := by
    simp
  have htw : (a ++ '>' :: r).takeWhile (· ≠ '>') = a := takeWhile_append_gt a r ha
  have hd2 : (a ++ '>' :: r).drop a.length = '>' :: r := List.drop_left a ('>' :: r)
  simp only [countTag, List.cons_append, List.append_eq, countTagGo, hs, if_true,
    hdrop, htw, hd2]
  rw [countTagGo_drop]
  have hfin : (pr ++ (a ++ '>' :: r)).drop ((p0 :: pr).length - 1 + a.length + 1) = r := by
    have h1 : pr ++ (a ++ '>' :: r) = (pr ++ a ++ ['>']) ++ r := by simp
    have h2 : (p0 :: pr).length - 1 + a.length + 1 = (pr ++ a ++ ['>']).length := by
      simp only [List.length_cons, List.length_append, List.length_nil]; omega
    rw [h1, h2, List.drop_left]
  rw [hfin]
  rfl

/-- A fully occurrence-free list yields a zero tag count. -/
theorem countTag_of_free {pat s : List Char}
    (h : ∀ i < s.length, ciStarts pat (s.drop i) = false) : countTag pat s = 0 := by
  rw [countTag_skip s.length s h, List.drop_length]
  rfl

/-- A fully occurrence-free list yields a zero literal count. -/
theorem countLit_of_free {pat s : List Char}
    (h : ∀ i < s.length, ciStarts pat (s.drop i) = false) : countLit pat s = 0 := by
  rw [countLit_skip s.length s h, List.drop_length]
  rfl

/-- The head of an append is the head of a nonempty left part. -/
theorem head_some_append {c : Char} {l : List Char} (h : l.head? = some c)
    (r : List Char) : (l ++ r).head? = some c := by
  cases l with
  | nil => simp at h
  | cons x t => simpa using h

/-- The last character of `a ++ ['>']` is `>`. -/
theorem concat_last_gt (a : List Char) :
    (a ++ ['>']).get? ((a ++ ['>']).length - 1) = some '>' := by
  rw [show (a ++ ['>']).length - 1 = a.length by simp]
  exact List.get?_concat_length a '>'

/-- The two components of `attrsOk`. -/
theorem attrsOk_split {a : List Char} (h : attrsOk a = true) :
    (∀ x ∈ a, x ≠ '>') ∧ markerFree (a ++ ['>']) = true := by
  simp only [attrsOk, Bool.and_eq_true] at h
  obtain ⟨h1, h2⟩ := h
  refine ⟨fun x hx hx' => ?_, h2⟩
  subst hx'
  simp at h1
  exact h1 hx

/-- The four components of `markerFree`. -/
theorem markerFree_split {s : List Char} (h : markerFree s = true) :
    occFree "<script".data s = true ∧ occFree "</script>".data s = true ∧
    occFree "<style".data s = true ∧ occFree "</style>".data s = true := by
  simp only [markerFree, Bool.and_eq_true] at h
  tauto

/-- Skipping an occurrence-free left part of an append (tag count). -/
theorem countTag_append_skip {pat : List Char} (q z : List Char)
    (hq : ∀ i < q.length, ciStarts pat ((q ++ z).drop i) = false) :
    countTag pat (q ++ z) = countTag pat z := by
  rw [countTag_skip q.length (q ++ z) hq, List.drop_left]

/-- Skipping an occurrence-free left part of an append (literal count). -/
theorem countLit_append_skip {pat : List Char} (q z : List Char)
    (hq : ∀ i < q.length, ciStarts pat ((q ++ z).drop i) = false) :
    countLit pat (q ++ z) = countLit pat z := by
  rw [countLit_skip q.length (q ++ z) hq, List.drop_left]

/-- Every rendered chunk starts with `<`. -/
theorem chunk_render_head (c : Chunk) (x : List Char) :
    (c.render ++ x).head? = some '<' := by
  cases c <;> rfl

/-- Contribution of one closed chunk to the script-open tag count. -/
theorem chunk_countTag_script (c : Chunk) (rest : List Char) (hok : c.ok = true) :
    countTag "<script".data (c.render ++ rest)
      = (if chunkIsScript c then 1 else 0) + countTag "<script".data rest := by
  cases c with
  | scriptBlock a b =>
    simp only [Chunk.ok, Bool.and_eq_true] at hok
    obtain ⟨hao, hbm⟩ := hok
    obtain ⟨hagt, _⟩ := attrsOk_split hao
    obtain ⟨hb1, _, _, _⟩ := markerFree_split hbm
    have hre : Chunk.render (.scriptBlock a b) ++ rest
        = "<script".data ++ (a ++ '>' :: (b ++ ("</script>".data ++ rest))) := by
      simp [Chunk.render]
    rw [hre]
    rw [show ("<script".data : List Char) = '<' :: "script".data from rfl]
    rw [countTag_hit a (b ++ ("</script>".data ++ rest)) hagt]
    have hsb : countTag ('<' :: "script".data) (b ++ ("</script>".data ++ rest))
        = countTag ('<' :: "script".data) ("</script>".data ++ rest) :=
      countTag_append_skip b _ (noStart_plain _ b _ (by decide) hb1
        (Or.inr (@head_some_append '<' "</script>".data rfl _)))
    have hsc : countTag ('<' :: "script".data) ("</script>".data ++ rest)
        = countTag ('<' :: "script".data) rest :=
      countTag_append_skip _ _ (fun i hi => noStart_lit _ "</script>".data (by decide) i hi rest)
    rw [hsb, hsc]
    simp [chunkIsScript]
  | styleBlock a b =>
    simp only [Chunk.ok, Bool.and_eq_true] at hok
    obtain ⟨hao, hbm⟩ := hok
    obtain ⟨_, ham⟩ := attrsOk_split hao
    obtain ⟨hb1, _, _, _⟩ := markerFree_split hbm
    obtain ⟨ha1, _, _, _⟩ := markerFree_split ham
    have hre : Chunk.render (.styleBlock a b) ++ rest
        = "<style".data ++ (a ++ '>' :: (b ++ ("</style>".data ++ rest))) := by
      simp [Chunk.render]
    rw [hre, List.append_cons a '>' (b ++ ("</style>".data ++ rest))]
    have h1 : countTag "<script".data
          ("<style".data ++ (a ++ ['>'] ++ (b ++ ("</style>".data ++ rest))))
        = countTag "<script".data (a ++ ['>'] ++ (b ++ ("</style>".data ++ rest))) :=
      countTag_append_skip _ _ (fun i hi => noStart_lit _ "<style".data (by decide) i hi _)
    have h2 : countTag "<script".data (a ++ ['>'] ++ (b ++ ("</style>".data ++ rest)))
        = countTag "<script".data (b ++ ("</style>".data ++ rest)) :=
      countTag_append_skip _ _ (noStart_upToGt _ (a ++ ['>']) _ (by decide)
        (concat_last_gt a) ha1)
    have h3 : countTag "<script".data (b ++ ("</style>".data ++ rest))
        = countTag "<script".data ("</style>".data ++ rest) :=
      countTag_append_skip _ _ (noStart_plain _ b _ (by decide) hb1
        (Or.inr (@head_some_append '<' "</style>".data rfl _)))
    have h4 : countTag "<script".data ("</style>".data ++ rest)
        = countTag "<script".data rest :=
      countTag_append_skip _ _ (fun i hi => noStart_lit _ "</style>".data (by decide) i hi _)
    rw [h1, h2, h3, h4]
    simp [chunkIsScript]

/-- Contribution of one closed chunk to the script-close literal count. -/
theorem chunk_countLit_closeScript (c : Chunk) (rest : List Char) (hok : c.ok = true) :
    countLit "</script>".data (c.render ++ rest)
      = (if chunkIsScript c then 1 else 0) + countLit "</script>".data rest := by
  cases c with
  | scriptBlock a b =>
    simp only [Chunk.ok, Bool.and_eq_true] at hok
    obtain ⟨hao, hbm⟩ := hok
    obtain ⟨_, ham⟩ := attrsOk_split hao
    obtain ⟨_, hb2, _, _⟩ := markerFree_split hbm
    obtain ⟨_, ha2, _, _⟩ := markerFree_split ham
    have hre : Chunk.render (.scriptBlock a b) ++ rest
        = "<script".data ++ (a ++ '>' :: (b ++ ("</script>".data ++ rest))) := by
      simp [Chunk.render]
    rw [hre, List.append_cons a '>' (b ++ ("</script>".data ++ rest))]
    have h1 : countLit "</script>".data
          ("<script".data ++ (a ++ ['>'] ++ (b ++ ("</script>".data ++ rest))))
        = countLit "</script>".data (a ++ ['>'] ++ (b ++ ("</script>".data ++ rest))) :=
      countLit_append_skip _ _ (fun i hi => noStart_lit _ "<script".data (by decide) i hi _)
    have h2 : countLit "</script>".data (a ++ ['>'] ++ (b ++ ("</script>".data ++ rest)))
        = countLit "</script>".data (b ++ ("</script>".data ++ rest)) :=
      countLit_append_skip _ _ (noStart_upToGt _ (a ++ ['>']) _ (by decide)
        (concat_last_gt a) ha2)
    have h3 : countLit "</script>".data (b ++ ("</script>".data ++ rest))
        = countLit "</script>".data ("</script>".data ++ rest) :=
      countLit_append_skip _ _ (noStart_plain _ b _ (by decide) hb2
        (Or.inr (@head_some_append '<' "</script>".data rfl _)))
    rw [h1, h2, h3]
    rw [show ("</script>".data : List Char) = '<' :: "/script>".data from rfl]
    rw [countLit_hit rest]
    simp [chunkIsScript]
  | styleBlock a b =>
    simp only [Chunk.ok, Bool.and_eq_true] at hok
    obtain ⟨hao, hbm⟩ := hok
    obtain ⟨_, ham⟩ := attrsOk_split hao
    obtain ⟨_, hb2, _, _⟩ := markerFree_split hbm
    obtain ⟨_, ha2, _, _⟩ := markerFree_split ham
    have hre : Chunk.render (.styleBlock a b) ++ rest
        = "<style".data ++ (a ++ '>' :: (b ++ ("</style>".data ++ rest))) := by
      simp [Chunk.render]
    rw [hre, List.append_cons a '>' (b ++ ("</style>".data ++ rest))]
    have h1 : countLit "</script>".data
          ("<style".data ++ (a ++ ['>'] ++ (b ++ ("</style>".data ++ rest))))
        = countLit "</script>".data (a ++ ['>'] ++ (b ++ ("</style>".data ++ rest))) :=
      countLit_append_skip _ _ (fun i hi => noStart_lit _ "<style".data (by decide) i hi _)
    have h2 : countLit "</script>".data (a ++ ['>'] ++ (b ++ ("</style>".data ++ rest)))
        = countLit "</script>".data (b ++ ("</style>".data ++ rest)) :=
      countLit_append_skip _ _ (noStart_upToGt _ (a ++ ['>']) _ (by decide)
        (concat_last_gt a) ha2)
    have h3 : countLit "</script>".data (b ++ ("</style>".data ++ rest))
        = countLit "</script>".data ("</style>".data ++ rest) :=
      countLit_append_skip _ _ (noStart_plain _ b _ (by decide) hb2
        (Or.inr (@head_some_append '<' "</style>".data rfl _)))
    have h4 : countLit "</script>".data ("</style>".data ++ rest)
        = countLit "</script>".data rest :=
      countLit_append_skip _ _ (fun i hi => noStart_lit _ "</style>".data (by decide) i hi _)
    rw [h1, h2, h3, h4]
    simp [chunkIsScript]

/-- Contribution of one closed chunk to the style-open tag count. -/
theorem chunk_countTag_style (c : Chunk) (rest : List Char) (hok : c.ok = true) :
    countTag "<style".data (c.render ++ rest)
      = (if chunkIsStyle c then 1 else 0) + countTag "<style".data rest := by
  cases c with
  | scriptBlock a b =>
    simp only [Chunk.ok, Bool.and_eq_true] at hok
    obtain ⟨hao, hbm⟩ := hok
    obtain ⟨_, ham⟩ := attrsOk_split hao
    obtain ⟨_, _, hb3, _⟩ := markerFree_split hbm
    obtain ⟨_, _, ha3, _⟩ := markerFree_split ham
    have hre : Chunk.render (.scriptBlock a b) ++ rest
        = "<script".data ++ (a ++ '>' :: (b ++ ("</script>".data ++ rest))) := by
      simp [Chunk.render]
    rw [hre, List.append_cons a '>' (b ++ ("</script>".data ++ rest))]
    have h1 : countTag "<style".data
          ("<script".data ++ (a ++ ['>'] ++ (b ++ ("</script>".data ++ rest))))
        = countTag "<style".data (a ++ ['>'] ++ (b ++ ("</script>".data ++ rest))) :=
      countTag_append_skip _ _ (fun i hi => noStart_lit _ "<script".data (by decide) i hi _)
    have h2 : countTag "<style".data (a ++ ['>'] ++ (b ++ ("</script>".data ++ rest)))
        = countTag "<style".data (b ++ ("</script>".data ++ rest)) :=
      countTag_append_skip _ _ (noStart_upToGt _ (a ++ ['>']) _ (by decide)
        (concat_last_gt a) ha3)
    have h3 : countTag "<style".data (b ++ ("</script>".data ++ rest))
        = countTag "<style".data ("</script>".data ++ rest) :=
      countTag_append_skip _ _ (noStart_plain _ b _ (by decide) hb3
        (Or.inr (@head_some_append '<' "</script>".data rfl _)))
    have h4 : countTag "<style".data ("</script>".data ++ rest)
        = countTag "<style".data rest :=
      countTag_append_skip _ _ (fun i hi => noStart_lit _ "</script>".data (by decide) i hi _)
    rw [h1, h2, h3, h4]
    simp [chunkIsStyle]
  | styleBlock a b =>
    simp only [Chunk.ok, Bool.and_eq_true] at hok
    obtain ⟨hao, hbm⟩ := hok
    obtain ⟨hagt, _⟩ := attrsOk_split hao
    obtain ⟨_, _, hb3, _⟩ := markerFree_split hbm
    have hre : Chunk.render (.styleBlock a b) ++ rest
        = "<style".data ++ (a ++ '>' :: (b ++ ("</style>".data ++ rest))) := by
      simp [Chunk.render]
    rw [hre]
    rw [show ("<style".data : List Char) = '<' :: "style".data from rfl]
    rw [countTag_hit a (b ++ ("</style>".data ++ rest)) hagt]
    have hsb : countTag ('<' :: "style".data) (b ++ ("</style>".data ++ rest))
        = countTag ('<' :: "style".data) ("</style>".data ++ rest) :=
      countTag_append_skip b _ (noStart_plain _ b _ (by decide) hb3
        (Or.inr (@head_some_append '<' "</style>".data rfl _)))
    have hsc : countTag ('<' :: "style".data) ("</style>".data ++ rest)
        = countTag ('<' :: "style".data) rest :=
      countTag_append_skip _ _ (fun i hi => noStart_lit _ "</style>".data (by decide) i hi rest)
    rw [hsb, hsc]
    simp [chunkIsStyle]

/-- Contribution of one closed chunk to the style-close literal count. -/
theorem chunk_countLit_closeStyle (c : Chunk) (rest : List Char) (hok : c.ok = true) :
    countLit "</style>".data (c.render ++ rest)
      = (if chunkIsStyle c then 1 else 0) + countLit "</style>".data rest := by
  cases c with
  | scriptBlock a b =>
    simp only [Chunk.ok, Bool.and_eq_true] at hok
    obtain ⟨hao, hbm⟩ := hok
    obtain ⟨_, ham⟩ := attrsOk_split hao
    obtain ⟨_, _, _, hb4⟩ := markerFree_split hbm
    obtain ⟨_, _, _, ha4⟩ := markerFree_split ham
    have hre : Chunk.render (.scriptBlock a b) ++ rest
        = "<script".data ++ (a ++ '>' :: (b ++ ("</script>".data ++ rest))) := by
      simp [Chunk.render]
    rw [hre, List.append_cons a '>' (b ++ ("</script>".data ++ rest))]
    have h1 : countLit "</style>".data
          ("<script".data ++ (a ++ ['>'] ++ (b ++ ("</script>".data ++ rest))))
        = countLit "</style>".data (a ++ ['>'] ++ (b ++ ("</script>".data ++ rest))) :=
      countLit_append_skip _ _ (fun i hi => noStart_lit _ "<script".data (by decide) i hi _)
    have h2 : countLit "</style>".data (a ++ ['>'] ++ (b ++ ("</script>".data ++ rest)))
        = countLit "</style>".data (b ++ ("</script>".data ++ rest)) :=
      countLit_append_skip _ _ (noStart_upToGt _ (a ++ ['>']) _ (by decide)
        (concat_last_gt a) ha4)
    have h3 : countLit "</style>".data (b ++ ("</script>".data ++ rest))
        = countLit "</style>".data ("</script>".data ++ rest) :=
      countLit_append_skip _ _ (noStart_plain _ b _ (by decide) hb4
        (Or.inr (@head_some_append '<' "</script>".data rfl _)))
    have h4 : countLit "</style>".data ("</script>".data ++ rest)
        = countLit "</style>".data rest :=
      countLit_append_skip _ _ (fun i hi => noStart_lit _ "</script>".data (by decide) i hi _)
    rw [h1, h2, h3, h4]
    simp [chunkIsStyle]
  | styleBlock a b =>
    simp only [Chunk.ok, Bool.and_eq_true] at hok
    obtain ⟨hao, hbm⟩ := hok
    obtain ⟨_, ham⟩ := attrsOk_split hao
    obtain ⟨_, _, _, hb4⟩ := markerFree_split hbm
    obtain ⟨_, _, _, ha4⟩ := markerFree_split ham
    have hre : Chunk.render (.styleBlock a b) ++ rest
        = "<style".data ++ (a ++ '>' :: (b ++ ("</style>".data ++ rest))) := by
      simp [Chunk.render]
    rw [hre, List.append_cons a '>' (b ++ ("</style>".data ++ rest))]
    have h1 : countLit "</style>".data
          ("<style".data ++ (a ++ ['>'] ++ (b ++ ("</style>".data ++ rest))))
        = countLit "</style>".data (a ++ ['>'] ++ (b ++ ("</style>".data ++ rest))) :=
      countLit_append_skip _ _ (fun i hi => noStart_lit _ "<style".data (by decide) i hi _)
    have h2 : countLit "</style>".data (a ++ ['>'] ++ (b ++ ("</style>".data ++ rest)))
        = countLit "</style>".data (b ++ ("</style>".data ++ rest)) :=
      countLit_append_skip _ _ (noStart_upToGt _ (a ++ ['>']) _ (by decide)
        (concat_last_gt a) ha4)
    have h3 : countLit "</style>".data (b ++ ("</style>".data ++ rest))
        = countLit "</style>".data ("</style>".data ++ rest) :=
      countLit_append_skip _ _ (noStart_plain _ b _ (by decide) hb4
        (Or.inr (@head_some_append '<' "</style>".data rfl _)))
    rw [h1, h2, h3]
    rw [show ("</style>".data : List Char) = '<' :: "/style>".data from rfl]
    rw [countLit_hit rest]
    simp [chunkIsStyle]

/-- Script-open tag count over an alternation of plain text and chunks. -/
theorem pairs_countTag_script (rest : List Char) :
    ∀ l : List (List Char × Chunk),
      l.all (fun p => markerFree p.1 && p.2.ok) = true →
      countTag "<script".data (renderPairs l ++ rest)
        = l.countP (fun p => chunkIsScript p.2) + countTag "<script".data rest := by
  intro l
  induction l with
  | nil => intro _; simp [renderPairs]
  | cons p t ih =>
    intro hall
    rw [List.all_cons, Bool.and_eq_true] at hall
    obtain ⟨hp, ht⟩ := hall
    rw [Bool.and_eq_true] at hp
    obtain ⟨hm, hok⟩ := hp
    obtain ⟨hq1, _, _, _⟩ := markerFree_split hm
    have hre : renderPairs (p :: t) ++ rest
        = p.1 ++ (p.2.render ++ (renderPairs t ++ rest)) := by
      simp [renderPairs, List.append_assoc]
    rw [hre]
    rw [countTag_append_skip p.1 _ (noStart_plain _ p.1 _ (by decide) hq1
      (Or.inr (chunk_render_head p.2 _)))]
    rw [chunk_countTag_script p.2 _ hok, ih ht]
    cases hc : chunkIsScript p.2 <;> (simp [hc, List.countP_cons]; try omega)

/-- Script-close literal count over an alternation of plain text and chunks. -/
theorem pairs_countLit_closeScript (rest : List Char) :
    ∀ l : List (List Char × Chunk),
      l.all (fun p => markerFree p.1 && p.2.ok) = true →
      countLit "</script>".data (renderPairs l ++ rest)
        = l.countP (fun p => chunkIsScript p.2) + countLit "</script>".data rest := by
  intro l
  induction l with
  | nil => intro _; simp [renderPairs]
  | cons p t ih =>
    intro hall
    rw [List.all_cons, Bool.and_eq_true] at hall
    obtain ⟨hp, ht⟩ := hall
    rw [Bool.and_eq_true] at hp
    obtain ⟨hm, hok⟩ := hp
    obtain ⟨_, hq2, _, _⟩ := markerFree_split hm
    have hre : renderPairs (p :: t) ++ rest
        = p.1 ++ (p.2.render ++ (renderPairs t ++ rest)) := by
      simp [renderPairs, List.append_assoc]
    rw [hre]
    rw [countLit_append_skip p.1 _ (noStart_plain _ p.1 _ (by decide) hq2
      (Or.inr (chunk_render_head p.2 _)))]
    rw [chunk_countLit_closeScript p.2 _ hok, ih ht]
    cases hc : chunkIsScript p.2 <;> (simp [hc, List.countP_cons]; try omega)

/-- Style-open tag count over an alternation of plain text and chunks. -/
theorem pairs_countTag_style (rest : List Char) :
    ∀ l : List (List Char × Chunk),
      l.all (fun p => markerFree p.1 && p.2.ok) = true →
      countTag "<style".data (renderPairs l ++ rest)
        = l.countP (fun p => chunkIsStyle p.2) + countTag "<style".data rest := by
  intro l
  induction l with
  | nil => intro _; simp [renderPairs]
  | cons p t ih =>
    intro hall
    rw [List.all_cons, Bool.and_eq_true] at hall
    obtain ⟨hp, ht⟩ := hall
    rw [Bool.and_eq_true] at hp
    obtain ⟨hm, hok⟩ := hp
    obtain ⟨_, _, hq3, _⟩ := markerFree_split hm
    have hre : renderPairs (p :: t) ++ rest
        = p.1 ++ (p.2.render ++ (renderPairs t ++ rest)) := by
      simp [renderPairs, List.append_assoc]
    rw [hre]
    rw [countTag_append_skip p.1 _ (noStart_plain _ p.1 _ (by decide) hq3
      (Or.inr (chunk_render_head p.2 _)))]
    rw [chunk_countTag_style p.2 _ hok, ih ht]
    cases hc : chunkIsStyle p.2 <;> (simp [hc, List.countP_cons]; try omega)

/-- Style-close literal count over an alternation of plain text and chunks. -/
theorem pairs_countLit_closeStyle (rest : List Char) :
    ∀ l : List (List Char × Chunk),
      l.all (fun p => markerFree p.1 && p.2.ok) = true →
      countLit "</style>".data (renderPairs l ++ rest)
        = l.countP (fun p => chunkIsStyle p.2) + countLit "</style>".data rest := by
  intro l
  induction l with
  | nil => intro _; simp [renderPairs]
  | cons p t ih =>
    intro hall
    rw [List.all_cons, Bool.and_eq_true] at hall
    obtain ⟨hp, ht⟩ := hall
    rw [Bool.and_eq_true] at hp
    obtain ⟨hm, hok⟩ := hp
    obtain ⟨_, _, _, hq4⟩ := markerFree_split hm
    have hre : renderPairs (p :: t) ++ rest
        = p.1 ++ (p.2.render ++ (renderPairs t ++ rest)) := by
      simp [renderPairs, List.append_assoc]
    rw [hre]
    rw [countLit_append_skip p.1 _ (noStart_plain _ p.1 _ (by decide) hq4
      (Or.inr (chunk_render_head p.2 _)))]
    rw [chunk_countLit_closeStyle p.2 _ hok, ih ht]
    cases hc : chunkIsStyle p.2 <;> (simp [hc, List.countP_cons]; try omega)

/-- C6: for every document text and every offset strictly inside a
well-formed script sub-block (rendered here as balanced marker-free plain
text alternating with closed script/style blocks, then plain text, an open
script tag and part of its body, followed by an arbitrary tail), the
region classifier `getPositionContext` reports the script region active
and the style, expression and template regions inactive. -/
theorem C6_script_region (pairs : List (List Char × Chunk))
    (lastPlain attrs bodyPre tl : List Char)
    (h : prefixOk pairs lastPlain attrs bodyPre = true) :
    (getPositionContext (String.mk (renderBefore pairs lastPlain attrs bodyPre ++ tl))
        (renderBefore pairs lastPlain attrs bodyPre).length).inScript = true ∧
    (getPositionContext (String.mk (renderBefore pairs lastPlain attrs bodyPre ++ tl))
        (renderBefore pairs lastPlain attrs bodyPre).length).inStyle = false ∧
    (getPositionContext (String.mk (renderBefore pairs lastPlain attrs bodyPre ++ tl))
        (renderBefore pairs lastPlain attrs bodyPre).length).inExpression = false ∧
    (getPositionContext (String.mk (renderBefore pairs lastPlain attrs bodyPre ++ tl))
        (renderBefore pairs lastPlain attrs bodyPre).length).inTemplate = false := by
  simp only [prefixOk, Bool.and_eq_true] at h
  obtain ⟨⟨⟨hall, hlp⟩, hattrs⟩, hbody⟩ := h
  obtain ⟨hagt, ham⟩ := attrsOk_split hattrs
  obtain ⟨hlp1, hlp2, hlp3, hlp4⟩ := markerFree_split hlp
  obtain ⟨ha1, ha2, ha3, ha4⟩ := markerFree_split ham
  obtain ⟨hb1, hb2, hb3, hb4⟩ := markerFree_split hbody
  have hre : renderBefore pairs lastPlain attrs bodyPre
      = renderPairs pairs ++ (lastPlain ++ ("<script".data ++ (attrs ++ '>' :: bodyPre))) := by
    simp [renderBefore, List.append_assoc]
  have hCount1 : countTag "<script".data (renderBefore pairs lastPlain attrs bodyPre)
      = pairs.countP (fun p => chunkIsScript p.2) + 1 := by
    rw [hre, pairs_countTag_script _ pairs hall]
    congr 1
    rw [countTag_append_skip lastPlain _ (noStart_plain _ lastPlain _ (by decide) hlp1
      (Or.inr (@head_some_append '<' "<script".data rfl _)))]
    rw [show ("<script".data : List Char) = '<' :: "script".data from rfl]
    rw [countTag_hit attrs bodyPre hagt]
    rw [countTag_of_free (occFree_spec hb1)]
  have hCount2 : countLit "</script>".data (renderBefore pairs lastPlain attrs bodyPre)
      = pairs.countP (fun p => chunkIsScript p.2) := by
    rw [hre, pairs_countLit_closeScript _ pairs hall]
    have hseg : countLit "</script>".data
        (lastPlain ++ ("<script".data ++ (attrs ++ '>' :: bodyPre))) = 0 := by
      rw [countLit_append_skip lastPlain _ (noStart_plain _ lastPlain _ (by decide) hlp2
        (Or.inr (@head_some_append '<' "<script".data rfl _)))]
      rw [countLit_append_skip "<script".data _
        (fun i hi => noStart_lit _ "<script".data (by decide) i hi _)]
      rw [List.append_cons attrs '>' bodyPre]
      rw [countLit_append_skip _ _ (noStart_upToGt _ (attrs ++ ['>']) _ (by decide)
        (concat_last_gt attrs) ha2)]
      exact countLit_of_free (occFree_spec hb2)
    rw [hseg]
    omega
  have hCount3 : countTag "<style".data (renderBefore pairs lastPlain attrs bodyPre)
      = pairs.countP (fun p => chunkIsStyle p.2) := by
    rw [hre, pairs_countTag_style _ pairs hall]
    have hseg : countTag "<style".data
        (lastPlain ++ ("<script".data ++ (attrs ++ '>' :: bodyPre))) = 0 := by
      rw [countTag_append_skip lastPlain _ (noStart_plain _ lastPlain _ (by decide) hlp3
        (Or.inr (@head_some_append '<' "<script".data rfl _)))]
      rw [countTag_append_skip "<script".data _
        (fun i hi => noStart_lit _ "<script".data (by decide) i hi _)]
      rw [List.append_cons attrs '>' bodyPre]
      rw [countTag_append_skip _ _ (noStart_upToGt _ (attrs ++ ['>']) _ (by decide)
        (concat_last_gt attrs) ha3)]
      exact countTag_of_free (occFree_spec hb3)
    rw [hseg]
    omega
  have hCount4 : countLit "</style>".data (renderBefore pairs lastPlain attrs bodyPre)
      = pairs.countP (fun p => chunkIsStyle p.2) := by
    rw [hre, pairs_countLit_closeStyle _ pairs hall]
    have hseg : countLit "</style>".data
        (lastPlain ++ ("<script".data ++ (attrs ++ '>' :: bodyPre))) = 0 := by
      rw [countLit_append_skip lastPlain _ (noStart_plain _ lastPlain _ (by decide) hlp4
        (Or.inr (@head_some_append '<' "<script".data rfl _)))]
      rw [countLit_append_skip "<script".data _
        (fun i hi => noStart_lit _ "<script".data (by decide) i hi _)]
      rw [List.append_cons attrs '>' bodyPre]
      rw [countLit_append_skip _ _ (noStart_upToGt _ (attrs ++ ['>']) _ (by decide)
        (concat_last_gt attrs) ha4)]
      exact countLit_of_free (occFree_spec hb4)
    rw [hseg]
    omega
  have htake : (String.mk (renderBefore pairs lastPlain attrs bodyPre ++ tl)).data.take
      (renderBefore pairs lastPlain attrs bodyPre).length
      = renderBefore pairs lastPlain attrs bodyPre := by
    rw [show (String.mk (renderBefore pairs lastPlain attrs bodyPre ++ tl)).data
        = renderBefore pairs lastPlain attrs bodyPre ++ tl from rfl]
    exact List.take_left _ _
  have hd1 : decide (pairs.countP (fun p => chunkIsScript p.2)
      < pairs.countP (fun p => chunkIsScript p.2) + 1) = true := by simp
  have hd2 : decide (pairs.countP (fun p => chunkIsStyle p.2)
      < pairs.countP (fun p => chunkIsStyle p.2)) = false := by simp
  refine ⟨?_, ?_, ?_, ?_⟩ <;>
    · simp only [getPositionContext, htake, hCount1, hCount2, hCount3, hCount4]
      simp [hd1, hd2]

theorem C6_script_region_witness :
    prefixOk [] "<p>x</p>".data [] "let a".data = true ∧
    (getPositionContext
        (String.mk (renderBefore [] "<p>x</p>".data [] "let a".data ++ "</script>".data))
        (renderBefore [] "<p>x</p>".data [] "let a".data).length).inScript = true :=
  ⟨by decide,
   (C6_script_region [] "<p>x</p>".data [] "let a".data "</script>".data (by decide)).1⟩
